import Mathlib

/-!
Verification of the quantitative core of the cooking-recipe application
(src/streamlit_app.py) against its specification.

The Python source is shallowly embedded below.  Strings are modelled as
Lean strings, processed as lists of characters (Python str operations work
on code points, as does List Char here).  Python floats are modelled as
exact rationals; the regular-expression searches used by the source are
small fixed patterns (a unit marker next to a decimal numeral) and are
modelled by direct left-to-right scanners with maximal-munch numerals,
which agrees with the leftmost-match semantics of the patterns involved
because none of the unit markers begins with a digit, a dot or a space.

All rational arithmetic in the executable definitions goes through
divInt-based helper functions (qadd, qmul, ...) so that every concrete
evaluation reduces in the kernel; bridge lemmas (qadd_eq_add, ...) relate
them to the ordinary field operations for the general theorems.
-/

set_option maxRecDepth 20000

-- ==================================================================
-- Rational helpers (kernel-computable images of +, -, *, /, round)
-- ==================================================================

/-- Kernel-computable addition on the rationals. -/
def qadd (a b : ℚ) : ℚ := Rat.divInt (a.num * b.den + b.num * a.den) (a.den * b.den)

/-- Kernel-computable negation on the rationals. -/
def qneg (a : ℚ) : ℚ := Rat.divInt (-a.num) a.den

/-- Kernel-computable subtraction on the rationals. -/
def qsub (a b : ℚ) : ℚ := qadd a (qneg b)

/-- Kernel-computable multiplication on the rationals. -/
def qmul (a b : ℚ) : ℚ := Rat.divInt (a.num * b.num) (a.den * b.den)

/-- Kernel-computable division on the rationals (division by zero gives zero,
    as in Lean; the embedded code never divides by zero). -/
def qdiv (a b : ℚ) : ℚ := Rat.divInt (a.num * b.den) (a.den * b.num)

/-- Shorthand for a rational constant given as a fraction of integers. -/
def qc (n : ℤ) (d : ℤ) : ℚ := Rat.divInt n d

/-- Python round(): round half to even (banker's rounding), as an integer. -/
def roundHalfEven (q : ℚ) : ℤ :=
  let f : ℤ := ⌊q⌋
  let r : ℚ := qsub q (Rat.divInt f 1)
  if r < qc 1 2 then f
  else if qc 1 2 < r then f + 1
  else if f % 2 = 0 then f else f + 1

/-- Python int(): truncation toward zero. -/
def pyTrunc (q : ℚ) : ℤ := if 0 ≤ q then ⌊q⌋ else -⌊qneg q⌋

/-- Python abs() on rationals, kernel-computable. -/
def qabs (q : ℚ) : ℚ := if q < 0 then qneg q else q

-- ==================================================================
-- Characters and strings: Python-like primitives
-- ==================================================================

/-- The whitespace class used by Python regular expressions, restricted to
    the characters that can occur in this application's data (ASCII
    whitespace and the ideographic space). -/
def isPySpace (c : Char) : Bool :=
  c == ' ' || c == '\t' || c == '\n' || c == '\r' || c == '\x0b' || c == '\x0c' || c == '　'

/-- ASCII lower-casing; agrees with Python str.lower on the character set
    used by the embedded code (digits, ASCII letters, kana/kanji, dots). -/
def asciiLower (c : Char) : Char :=
  if 'A' ≤ c ∧ c ≤ 'Z' then Char.ofNat (c.toNat + 32) else c

/-- Python str.lower over a character list. -/
def pyLower (cs : List Char) : List Char := cs.map asciiLower

/-- Does the pattern occur at the head of the list (list version of
    Python str.startswith)? -/
def startsWithL : List Char → List Char → Bool
  | [], _ => true
  | _ :: _, [] => false
  | p :: ps, c :: cs => p == c && startsWithL ps cs

/-- Python substring containment (the `in` operator on str). -/
def infixL (pat : List Char) : List Char → Bool
  | [] => pat.isEmpty
  | c :: rest => startsWithL pat (c :: rest) || infixL pat rest

/-- Python `needle in hay` on strings. -/
def pyIn (needle hay : String) : Bool := infixL needle.toList hay.toList

/-- Python str.replace, fuel-based so that it reduces in the kernel
    (any fuel at least the length of the list gives the replacement). -/
def pyReplaceGo (pat rep : List Char) : ℕ → List Char → List Char
  | 0, cs => cs
  | fuel + 1, cs =>
    match cs with
    | [] => []
    | c :: rest =>
      if startsWithL pat cs && !pat.isEmpty then
        rep ++ pyReplaceGo pat rep fuel (cs.drop pat.length)
      else c :: pyReplaceGo pat rep fuel rest

/-- Python str.replace: replace every non-overlapping occurrence,
    scanning left to right. -/
def pyReplace (pat rep cs : List Char) : List Char :=
  pyReplaceGo pat rep cs.length cs

/-- Python str.strip (both ends; whitespace as above). -/
def pyStrip (cs : List Char) : List Char :=
  ((cs.dropWhile isPySpace).reverse.dropWhile isPySpace).reverse

/-- Python str.rstrip with a single given character. -/
def pyRstripChar (ch : Char) (cs : List Char) : List Char :=
  (cs.reverse.dropWhile (fun c => c == ch)).reverse

/-- Join a list of character lists with a separator (Python sep.join). -/
def joinSep (sep : List Char) : List (List Char) → List Char
  | [] => []
  | [x] => x
  | x :: y :: r => x ++ sep ++ joinSep sep (y :: r)

/-- Replace every maximal run of two or more whitespace characters by a
    single ASCII space: the effect of re.sub over the two-or-more
    whitespace pattern with a one-space replacement. -/
def collapseSpacesGo : ℕ → List Char → List Char
  | 0, cs => cs
  | fuel + 1, cs =>
    match cs with
    | [] => []
    | [c] => [c]
    | c :: d :: rest =>
      if isPySpace c then
        if isPySpace d then ' ' :: collapseSpacesGo fuel ((d :: rest).dropWhile isPySpace)
        else c :: collapseSpacesGo fuel (d :: rest)
      else c :: collapseSpacesGo fuel (d :: rest)

/-- As above, with enough fuel for the whole list. -/
def collapseSpaces (cs : List Char) : List Char := collapseSpacesGo cs.length cs

-- ==================================================================
-- Decimal numerals: printing and scanning
-- ==================================================================

/-- One decimal digit as a character. -/
def digitChar (d : ℕ) : Char :=
  match d with
  | 0 => '0' | 1 => '1' | 2 => '2' | 3 => '3' | 4 => '4'
  | 5 => '5' | 6 => '6' | 7 => '7' | 8 => '8' | _ => '9'

/-- Decimal digits of a natural number, fuel-based (any fuel at least
    the number itself is enough, since a number has at most that many
    decimal digits). -/
def natCharsGo : ℕ → ℕ → List Char
  | 0, n => [digitChar (n % 10)]
  | fuel + 1, n =>
    if n < 10 then [digitChar n]
    else natCharsGo fuel (n / 10) ++ [digitChar (n % 10)]

/-- The decimal digits of a natural number, most significant first. -/
def natChars (n : ℕ) : List Char := natCharsGo n n

/-- Decimal digits of an integer, with a leading minus sign if negative
    (Python str() on int / the f-string rendering of an int). -/
def intChars (n : ℤ) : List Char :=
  if n < 0 then '-' :: natChars (-n).toNat else natChars n.toNat

/-- Numeric value of a list of decimal digit characters. -/
def digitsVal (ds : List Char) : ℕ :=
  ds.foldl (fun a c => a * 10 + (c.toNat - 48)) 0

/-- Maximal-munch scan of a decimal numeral `\d+(\.\d+)?` at the head of
    the list.  Returns the numeral's exact rational value and the rest.
    (The optional fraction is taken whenever a digit follows the dot;
    for the patterns in the source this agrees with backtracking, since
    no unit marker and no whitespace starts with a dot or a digit.) -/
def scanNumeral (cs : List Char) : Option (ℚ × List Char) :=
  let ds := cs.takeWhile Char.isDigit
  let r1 := cs.dropWhile Char.isDigit
  if ds.isEmpty then none
  else
    match r1 with
    | '.' :: r2 =>
      let fs := r2.takeWhile Char.isDigit
      let r3 := r2.dropWhile Char.isDigit
      if fs.isEmpty then some ((digitsVal ds : ℚ), r1)
      else some (qadd (digitsVal ds : ℚ) (Rat.divInt (digitsVal fs) ((10:ℤ) ^ fs.length)), r3)
    | _ => some ((digitsVal ds : ℚ), r1)

/-- Like scanNumeral but also returns the consumed characters. -/
def scanNumeralSpan (cs : List Char) : Option (List Char × List Char) :=
  let ds := cs.takeWhile Char.isDigit
  let r1 := cs.dropWhile Char.isDigit
  if ds.isEmpty then none
  else
    match r1 with
    | '.' :: r2 =>
      let fs := r2.takeWhile Char.isDigit
      let r3 := r2.dropWhile Char.isDigit
      if fs.isEmpty then some (ds, r1)
      else some (ds ++ '.' :: fs, r3)
    | _ => some (ds, r1)

/-- re.search for pattern: marker, optional whitespace, decimal numeral.
    Scans every start position left to right. -/
def scanMarkerNum (marker : List Char) : List Char → Option ℚ
  | [] => none
  | c :: rest =>
    if startsWithL marker (c :: rest) then
      match scanNumeral (((c :: rest).drop marker.length).dropWhile isPySpace) with
      | some (q, _) => some q
      | none => scanMarkerNum marker rest
    else scanMarkerNum marker rest

/-- re.search for pattern: decimal numeral, optional whitespace, then one
    of the listed unit markers (alternatives tried in order).
    Scans every start position left to right. -/
def scanNumUnit (units : List (List Char)) : List Char → Option ℚ
  | [] => none
  | c :: rest =>
    match scanNumeral (c :: rest) with
    | some (q, r1) =>
      if units.any (fun u => startsWithL u (r1.dropWhile isPySpace)) then some q
      else scanNumUnit units rest
    | none => scanNumUnit units rest

/-- First decimal numeral occurring anywhere in the list (the number
    search regex of the source). -/
def scanFirstNumeral : List Char → Option ℚ
  | [] => none
  | c :: rest =>
    match scanNumeral (c :: rest) with
    | some (q, _) => some q
    | none => scanFirstNumeral rest

-- ==================================================================
-- Printing of Python floats (exact short decimals)
-- ==================================================================

/-- Pad a digit list on the left with zeros to the given length. -/
def padZeros (k : ℕ) (ds : List Char) : List Char :=
  List.replicate (k - ds.length) '0' ++ ds

/-- Shift a rational by a power of ten. -/
def qshift (r : ℚ) (k : ℕ) : ℚ := qmul r (Rat.divInt ((10:ℤ) ^ k) 1)

/-- Decimal digits (after the point) of a fractional part that is an exact
    decimal with at most six places; none otherwise.  Models the fraction
    part printed by Python float formatting for the short decimals
    produced by the embedded code. -/
def fracDigits (r : ℚ) : Option (List Char) :=
  if (qshift r 1).den = 1 then some (padZeros 1 (natChars (qshift r 1).num.toNat))
  else if (qshift r 2).den = 1 then some (padZeros 2 (natChars (qshift r 2).num.toNat))
  else if (qshift r 3).den = 1 then some (padZeros 3 (natChars (qshift r 3).num.toNat))
  else if (qshift r 4).den = 1 then some (padZeros 4 (natChars (qshift r 4).num.toNat))
  else if (qshift r 5).den = 1 then some (padZeros 5 (natChars (qshift r 5).num.toNat))
  else if (qshift r 6).den = 1 then some (padZeros 6 (natChars (qshift r 6).num.toNat))
  else none

/-- Python format(v, 'g') for the nonnegative exact short decimals handled
    by this model: integers print without a point, other values print
    their decimal expansion with no trailing zeros. -/
def pyFmtGNN (q : ℚ) : List Char :=
  if q.den = 1 then natChars q.num.toNat
  else
    match fracDigits (qsub q (Rat.divInt ⌊q⌋ 1)) with
    | some ds => natChars ⌊q⌋.toNat ++ '.' :: ds
    | none => natChars q.num.natAbs ++ '/' :: natChars q.den

/-- Python format(v, 'g') (sign included). -/
def pyFmtG (q : ℚ) : List Char :=
  if q < 0 then '-' :: pyFmtGNN (qneg q) else pyFmtGNN q

/-- Python str() on a float: like 'g' but integral values end in '.0'. -/
def pyStrFloat (q : ℚ) : List Char :=
  if q.den = 1 then
    (if q < 0 then '-' :: natChars (-q.num).toNat else natChars q.num.toNat) ++ ['.', '0']
  else pyFmtG q

/-- round(x*2)/2, the half-unit rounding used for spoon display values. -/
def roundHalf (x : ℚ) : ℚ := Rat.divInt (roundHalfEven (qmul x 2)) 2

-- ==================================================================
-- Data model (pydantic classes of the source)
-- ==================================================================

/-- Ingredient: name, optional amount, optional flag, substitution hint. -/
structure Ingredient where
  name : String
  amount : Option String := none
  is_optional : Bool := false
  substitution : Option String := none
  deriving DecidableEq, Repr

/-- A single free-text instruction. -/
structure Step where
  text : String
  deriving DecidableEq, Repr

/-- Recipe: title, servings, metadata, ingredients and steps. -/
structure Recipe where
  recipe_title : String
  servings : ℕ := 2
  total_time_min : Option ℕ := none
  difficulty : Option String := none
  ingredients : List Ingredient
  steps : List Step
  equipment : Option (List String) := none
  deriving DecidableEq, Repr

/-- One planned day: index, chosen recipe, estimated cost in yen. -/
structure DayPlan where
  day_index : ℕ
  recipe : Recipe
  est_cost : ℤ
  deriving DecidableEq, Repr

-- ==================================================================
-- Reference tables of the source
-- ==================================================================

def TSP_IN_TBSP : ℚ := 3

def PROTEIN_G_PER_SERV : List (String × ℕ) :=
  [("鶏むね肉", 100), ("鶏もも肉", 100), ("豚肉", 100), ("牛肉", 100), ("ひき肉", 100),
   ("鮭", 90), ("さば", 90), ("ツナ", 70), ("ベーコン", 30), ("ハム", 30), ("豆腐", 150),
   ("木綿豆腐", 150), ("絹ごし豆腐", 150), ("卵", 50)]

def VEG_G_PER_SERV : List (String × ℕ) :=
  [("玉ねぎ", 50), ("ねぎ", 10), ("長ねぎ", 20), ("キャベツ", 80), ("にんじん", 40),
   ("じゃがいも", 80), ("なす", 60), ("ピーマン", 40), ("もやし", 100), ("ブロッコリー", 70),
   ("きのこ", 60), ("しめじ", 60), ("えのき", 60), ("トマト", 80), ("青菜", 70),
   ("小松菜", 70), ("ほうれん草", 70)]

def COND_TSP_PER_SERV : List (String × ℚ) :=
  [("塩", qc 1 8), ("砂糖", qc 1 2), ("しょうゆ", 1), ("醤油", 1), ("みりん", 1), ("酒", 1),
   ("酢", 1), ("コチュジャン", qc 1 2), ("味噌", qc 3 2), ("味の素", qc 1 4), ("顆粒だし", qc 1 2)]

def OIL_TSP_PER_SERV : List (String × ℚ) :=
  [("サラダ油", 1), ("ごま油", qc 1 2), ("オリーブオイル", 1)]

def PIECE_PER_SERV : List (String × String) :=
  [("卵", "1個"), ("にんにく", "0.5片"), ("生姜", "0.5片")]

def SPICY_WORDS : List String :=
  ["一味", "七味", "豆板醤", "コチュジャン", "ラー油", "唐辛子", "粉唐辛子"]

/-- Does the string contain an ASCII digit (the number-detection regex)? -/
def hasNumber (s : String) : Bool := s.toList.any Char.isDigit

-- ==================================================================
-- Pretty-printers for guessed quantities
-- ==================================================================

/-- Teaspoon quantity to display string (source: round tsp to pretty). -/
def round_tsp_to_pretty (tsp : ℚ) : String :=
  if tsp ≤ qc 3 20 then "少々"
  else
    let tbsp := qdiv tsp TSP_IN_TBSP
    if 1 ≤ tbsp then "大さじ" ++ String.mk (pyFmtG (roundHalf tbsp))
    else "小さじ" ++ String.mk (pyFmtG (roundHalf tsp))

/-- The numeric value displayed for a gram amount: round to the nearest
    10 g below 60 g, 25 g below 150 g, 50 g otherwise. -/
def gramsPrettyVal (g : ℤ) : ℤ :=
  let step : ℤ := if g < 60 then 10 else if g < 150 then 25 else 50
  roundHalfEven (Rat.divInt g step) * step

/-- Gram quantity to display string (source: grams to pretty). -/
def grams_to_pretty (g : ℤ) : String :=
  String.mk (intChars (gramsPrettyVal g)) ++ "g"

/-- Guessed display amount for an ingredient with no usable quantity
    (source: guess amount).  Greedy first match over the category tables:
    pieces, protein weight, vegetable weight, oil, condiment, trace-only
    keywords, and the to-taste sentinel as last resort. -/
def guess_amount (name : String) (servings : ℕ) : String :=
  match PIECE_PER_SERV.find? (fun kv => pyIn kv.1 name) with
  | some kv =>
    let num : ℚ := (scanFirstNumeral kv.2.toList).getD 1
    let numStr := pyRstripChar '.' (pyRstripChar '0' (pyStrFloat num))
    let unit := pyReplace numStr [] kv.2.toList
    let total := qmul num (Rat.divInt servings 1)
    if qabs (qsub total (Rat.divInt (pyTrunc total) 1)) < qc 1 1000000 then
      String.mk (intChars (pyTrunc total) ++ unit)
    else String.mk (pyFmtG total ++ unit)
  | none =>
  match PROTEIN_G_PER_SERV.find? (fun kv => pyIn kv.1 name) with
  | some kv => grams_to_pretty ((kv.2 : ℤ) * servings)
  | none =>
  match VEG_G_PER_SERV.find? (fun kv => pyIn kv.1 name) with
  | some kv => grams_to_pretty ((kv.2 : ℤ) * servings)
  | none =>
  match OIL_TSP_PER_SERV.find? (fun kv => pyIn kv.1 name) with
  | some kv => round_tsp_to_pretty (qmul kv.2 (Rat.divInt servings 1))
  | none =>
  match COND_TSP_PER_SERV.find? (fun kv => pyIn kv.1 name) with
  | some kv => round_tsp_to_pretty (qmul kv.2 (Rat.divInt servings 1))
  | none =>
  if ["胡椒", "こしょう", "黒胡椒", "一味", "七味", "ラー油"].any (fun k => pyIn k name)
  then "少々" else "適量"

-- ==================================================================
-- The quantity-in-name pattern (source: the name-quantity regex)
-- ==================================================================

/-- Unit markers of the name-quantity pattern, in alternation order. -/
def qtyUnits : List (List Char) :=
  ["g".toList, "グラム".toList, "kg".toList, "㎏".toList, "ml".toList, "mL".toList,
   "L".toList, "cc".toList, "カップ".toList, "cup".toList, "個".toList, "片".toList,
   "枚".toList, "本".toList]

/-- The trailing lookahead of the name-quantity pattern: end of string or
    a whitespace character (not consumed). -/
def qtyLookahead : List Char → Bool
  | [] => true
  | c :: _ => isPySpace c

/-- Alternative: spoon marker, optional whitespace, numeral.
    Returns (matched group, rest) when it matches with the lookahead. -/
def altMarkerNum (marker : List Char) (cs : List Char) : Option (List Char × List Char) :=
  if startsWithL marker cs then
    let r1 := cs.drop marker.length
    let sp := r1.takeWhile isPySpace
    let r2 := r1.dropWhile isPySpace
    match scanNumeralSpan r2 with
    | some (nc, r3) => if qtyLookahead r3 then some (marker ++ sp ++ nc, r3) else none
    | none => none
  else none

/-- Alternative: numeral, optional whitespace, unit marker (alternatives in
    order, each checked against the lookahead as the pattern backtracks). -/
def altNumUnit (cs : List Char) : Option (List Char × List Char) :=
  match scanNumeralSpan cs with
  | some (nc, r1) =>
    let sp := r1.takeWhile isPySpace
    let r2 := r1.dropWhile isPySpace
    (qtyUnits.filterMap (fun u =>
      if startsWithL u r2 && qtyLookahead (r2.drop u.length) then
        some (nc ++ sp ++ u, r2.drop u.length)
      else none)).head?
  | none => none

/-- Alternative: a literal token (trace / to-taste sentinel). -/
def altLit (lit : List Char) (cs : List Char) : Option (List Char × List Char) :=
  if startsWithL lit cs then
    (if qtyLookahead (cs.drop lit.length) then some (lit, cs.drop lit.length) else none)
  else none

/-- The quantity group of the name pattern, tried at one position:
    spoon-marker numeral, numeral-with-unit, trace, to-taste. -/
def tryQtyAlt (cs : List Char) : Option (List Char × List Char) :=
  (altMarkerNum "小さじ".toList cs).orElse fun _ =>
  (altMarkerNum "大さじ".toList cs).orElse fun _ =>
  (altNumUnit cs).orElse fun _ =>
  (altLit "少々".toList cs).orElse fun _ =>
  altLit "適量".toList cs

/-- Simultaneous re.sub (each match replaced by one space) and re.search
    (group of the first match) for the name-quantity pattern.  The
    leading context (start of string or one whitespace character, which is
    part of the match) is handled by the atStart flag and the explicit
    space case; scanning proceeds left to right, continuing after each
    match, exactly as Python's scanner does. -/
def qtySub (fuel : ℕ) (atStart : Bool) (cs : List Char) : List Char × Option (List Char) :=
  match fuel with
  | 0 => (cs, none)
  | fuel + 1 =>
    match cs with
    | [] => ([], none)
    | c :: rest =>
      match (if atStart then tryQtyAlt (c :: rest) else none) with
      | some (g, r) =>
        let t := qtySub fuel false r
        (' ' :: t.1, some (t.2.getD g))
      | none =>
        if isPySpace c then
          match tryQtyAlt rest with
          | some (g, _r) =>
            let t := qtySub fuel false _r
            (' ' :: t.1, some g)
          | none =>
            let t := qtySub fuel false rest
            (c :: t.1, t.2)
        else
          let t := qtySub fuel false rest
          (c :: t.1, t.2)

/-- Source: split quantity from name.  Removes every quantity token from
    the name (replacing it by a space, then collapsing whitespace and
    stripping) and returns the first removed token; if the remaining base
    is empty the original name is returned. -/
def split_quantity_from_name (name : String) : String × Option String :=
  let txt := name.toList
  let sq := qtySub (txt.length + 1) true txt
  let base := collapseSpaces (pyStrip sq.1)
  ((if base.isEmpty then name else String.mk base), sq.2.map String.mk)

-- ==================================================================
-- Amount sanitizing, canonicalizing, rendering
-- ==================================================================

/-- The explicit zero-quantity display forms. -/
def ZERO_FORMS : List String :=
  ["小さじ0", "大さじ0", "0g", "0個", "0片", "0枚", "0本", "0cc"]

/-- Source: sanitize amount.  Strips, normalizes the full-width dot,
    removes '.0' occurrences and collapses explicit zero forms to the
    trace sentinel; empty input is None (falsy). -/
def sanitize_amount : Option String → Option String
  | none => none
  | some s =>
    if s.isEmpty then none
    else
      let a := pyReplace ".0".toList [] (pyReplace "．".toList ".".toList (pyStrip s.toList))
      if ZERO_FORMS.contains (String.mk a) then some "少々" else some (String.mk a)

/-- Source: amount to unit value.  Canonicalize a display string to a
    (unit-tag, value) pair; markers tried in order tbsp, tsp, gram, piece. -/
def amount_to_unit_value (amount : String) : String × ℚ :=
  if amount.isEmpty then ("", 0)
  else
    let a := pyLower (pyStrip (pyReplace "．".toList ".".toList amount.toList))
    match scanMarkerNum "大さじ".toList a with
    | some q => ("tbsp", q)
    | none =>
    match scanMarkerNum "小さじ".toList a with
    | some q => ("tsp", q)
    | none =>
    match scanNumUnit ["g".toList] a with
    | some q => ("g", q)
    | none =>
    match scanNumUnit ["個".toList] a with
    | some q => ("piece", q)
    | none => ("", 0)

/-- Source: unit value to amount.  Render a canonical pair back to a
    display string with unit-specific rounding. -/
def unit_value_to_amount (u : String) (v : ℚ) : String :=
  if u = "tbsp" then
    let v2 := roundHalf v
    if v2 ≤ 0 then "少々" else "大さじ" ++ String.mk (pyFmtG v2)
  else if u = "tsp" then
    let v2 := roundHalf v
    if v2 ≤ 0 then "少々" else "小さじ" ++ String.mk (pyFmtG v2)
  else if u = "g" then
    if v ≤ 0 then "少々" else grams_to_pretty (roundHalfEven v)
  else if u = "piece" then
    if qabs (qsub v (Rat.divInt (pyTrunc v) 1)) < qc 1 1000000 then
      String.mk (intChars (pyTrunc v)) ++ "個"
    else String.mk (pyFmtG v) ++ "個"
  else
    match sanitize_amount (some (String.mk (pyStrFloat v))) with
    | some s => if s.isEmpty then "適量" else s
    | none => "適量"

/-- Source: is condiment (substring match over the condiment keywords). -/
def is_condiment (name : String) : Bool :=
  ["塩", "砂糖", "しょうゆ", "醤油", "みりん", "酒", "味噌", "酢", "ごま油",
   "オリーブオイル", "油", "バター", "だし", "顆粒だし"].any (fun k => pyIn k name)

/-- Source: is spicy. -/
def is_spicy (name : String) : Bool := SPICY_WORDS.any (fun k => pyIn k name)

/-- Source: adjust child friendly amount. -/
def adjust_child_friendly_amount (name amount : String) (factor : ℚ) : String :=
  if amount.isEmpty then amount
  else
    let uv := amount_to_unit_value amount
    if is_spicy name then "少々（大人は後がけ）"
    else if is_condiment name then
      if uv.1 = "tbsp" ∨ uv.1 = "tsp" ∨ uv.1 = "g" then
        unit_value_to_amount uv.1 (qmul uv.2 factor)
      else amount
    else amount

/-- Python truthiness for an optional string: None and the empty string
    are falsy. -/
def truthy (o : Option String) : Option String :=
  match o with
  | some s => if s.isEmpty then none else some s
  | none => none

/-- a or b or "" for optional strings under Python truthiness. -/
def firstTruthy (a b : Option String) : String :=
  match truthy a with
  | some s => s
  | none => (truthy b).getD ""

/-- The unusable-amount test of the normalizer: falsy, contains the
    to-taste sentinel, or has no digit and no trace sentinel. -/
def amountUnusable (amt : String) : Bool :=
  amt.isEmpty || pyIn "適量" amt || (!hasNumber amt && !pyIn "少々" amt)

/-- The loop body of the ingredient normalizer, for one ingredient. -/
def normalize_ingredient (servings : ℕ) (child_mode : Bool) (child_factor : ℚ)
    (it : Ingredient) : Ingredient :=
  let bq := split_quantity_from_name it.name
  let amt0 := firstTruthy (sanitize_amount it.amount) bq.2
  let amt1 := if amountUnusable amt0 then guess_amount bq.1 servings else amt0
  let amt2 := firstTruthy (sanitize_amount (some amt1)) (some "適量")
  let amt3 := if child_mode then adjust_child_friendly_amount bq.1 amt2 child_factor else amt2
  { name := bq.1, amount := some amt3,
    is_optional := it.is_optional, substitution := it.substitution }

/-- Source: normalize ingredients. -/
def normalize_ingredients (ings : List Ingredient) (servings : ℕ)
    (child_mode : Bool) (child_factor : ℚ) : List Ingredient :=
  ings.map (normalize_ingredient servings child_mode child_factor)

-- ==================================================================
-- Quality gate (source: quality check)
-- ==================================================================

/-- Heat-process markers. -/
def HEAT_WORDS : List String :=
  ["弱火", "中火", "強火", "沸騰", "余熱", "レンジ", "600W", "500W"]

/-- Basic-seasoning markers. -/
def SEASONINGS : List String :=
  ["塩", "砂糖", "しょうゆ", "醤油", "みりん", "酒", "味噌", "酢", "ごま油",
   "オリーブオイル", "バター", "だし"]

/-- Python str() of an optional string field in an f-string: None prints
    as the four characters of the word None. -/
def pyStrOpt : Option String → List Char
  | none => "None".toList
  | some a => a.toList

/-- The joined step text used by the quality gate. -/
def step_text (rec : Recipe) : String :=
  String.mk (joinSep "。".toList (rec.steps.map (fun s => s.text.toList)))

/-- The joined name-and-amount ingredient text used by the quality gate. -/
def ing_text (rec : Recipe) : String :=
  String.mk (joinSep "、".toList
    (rec.ingredients.map (fun i => i.name.toList ++ ' ' :: pyStrOpt i.amount)))

/-- Source: quality check.  Returns (ok, warnings), one warning per
    failed check. -/
def quality_check (rec : Recipe) : Bool × List String :=
  let w1 := if rec.ingredients.length < 3 then ["材料が少なすぎます（3品以上を推奨）"] else []
  let w2 := if rec.steps.length < 3 then ["手順が少なすぎます（3ステップ以上を推奨）"] else []
  let w3 := if !(HEAT_WORDS.any (fun w => pyIn w (step_text rec))) then
      ["加熱の記述がありません（弱火/中火/強火 や レンジ時間の明示を推奨）"] else []
  let w4 := if !(SEASONINGS.any (fun s => pyIn s (ing_text rec))) then
      ["基本的な調味が見当たりません（塩・しょうゆ・みりん等）"] else []
  let w5 := if pyIn "適量" (ing_text rec) then
      ["“適量”が含まれています（できるだけ小さじ/大さじ/グラム表記に）"] else []
  let warns := w1 ++ w2 ++ w3 ++ w4 ++ w5
  (warns.length = 0, warns)

-- ==================================================================
-- Nutrition profiles and scoring
-- ==================================================================

/-- The three scored nutrition ranges of one profile. -/
structure ProfileRanges where
  kcal : ℚ × ℚ
  protein_g : ℚ × ℚ
  salt_g : ℚ × ℚ
  deriving DecidableEq, Repr

/-- The futsu (normal) profile, also the lookup default. -/
def futsuRanges : ProfileRanges := ⟨(500, 800), (20, 35), (0, qc 5 2)⟩

/-- The four named profiles (the 2.5, 2.0, 3.0 salt bounds and other
    decimal constants are exact). -/
def NUTRI_PROFILES : List (String × ProfileRanges) :=
  [("ふつう", futsuRanges),
   ("ダイエット", ⟨(350, 600), (25, 40), (0, 2)⟩),
   ("がっつり", ⟨(700, 1000), (35, 55), (0, 3)⟩),
   ("減塩", ⟨(500, 800), (20, 35), (0, 2)⟩)]

/-- The inner mark function of the profile scorer: the constants 0.9 and
    1.15 of the source appear as the exact fractions 9/10 and 23/20. -/
def markQ (val : ℚ) (rng : ℚ × ℚ) : String :=
  if val < qmul rng.1 (qc 9 10) then "△"
  else if rng.1 ≤ val ∧ val ≤ rng.2 then "◎"
  else if val ≤ qmul rng.2 (qc 23 20) then "△"
  else "⚠"

/-- A nutrition triple as passed to the scorer. -/
structure NutriVal where
  kcal : ℚ
  protein_g : ℚ
  salt_g : ℚ
  deriving DecidableEq, Repr

/-- Source: score against profile (unknown names fall back to ふつう). -/
def score_against_profile (nutri : NutriVal) (profile_name : String) : String × String × String :=
  let prof :=
    match NUTRI_PROFILES.find? (fun kv => kv.1 == profile_name) with
    | some kv => kv.2
    | none => futsuRanges
  (markQ nutri.kcal prof.kcal, markQ nutri.protein_g prof.protein_g,
   markQ nutri.salt_g prof.salt_g)

-- ==================================================================
-- Canonicalizer used by the estimators (source: amount to grams or spoons)
-- ==================================================================

/-- Source: amount to grams or spoons.  Order of the patterns: gram (or
    グラム), tablespoon, teaspoon, piece, half-piece (counted 0.5 each);
    anything else, including milliliter, cc and cup strings, falls through
    to ("g", 0). -/
def amount_to_grams_or_spoons (amount : String) : String × ℚ :=
  if amount.isEmpty then ("g", 0)
  else
    let a := pyLower (pyStrip (pyReplace "．".toList ".".toList amount.toList))
    match scanNumUnit ["g".toList, "グラム".toList] a with
    | some q => ("g", q)
    | none =>
    match scanMarkerNum "大さじ".toList a with
    | some q => ("tbsp", q)
    | none =>
    match scanMarkerNum "小さじ".toList a with
    | some q => ("tsp", q)
    | none =>
    match scanNumUnit ["個".toList] a with
    | some q => ("piece", q)
    | none =>
    match scanNumUnit ["片".toList] a with
    | some q => ("piece", qmul q (qc 1 2))
    | none => ("g", 0)

-- ==================================================================
-- Weekly planner (source: plan week)
-- ==================================================================

def PROTEIN_ROTATION_DEFAULT : List String :=
  ["鶏むね肉", "豚肉", "豆腐", "鮭", "鶏もも肉", "卵", "さば"]

def PROTEIN_ROTATION_CHEAP : List String :=
  ["鶏むね肉", "豆腐", "卵", "豚肉", "もやし入り", "鶏むね肉", "豆腐"]

/-- WEEK REPLAN ATTEMPTS feature flag. -/
def WEEK_REPLAN_ATTEMPTS : ℕ := 2

/-- The result of the planner.  The source returns (plans, total cost,
    feasible budget or None, week nutrition summary); the summary is a
    pure function of the returned plans and the profile name and plays no
    part in the control flow, so it is not carried here.  The two extra
    fields are proof instrumentation recording what the loop did:
    attempts is the number of executed re-optimization iterations and
    replaced lists the day indices whose plan was replaced. -/
structure WeekResult where
  plans : List DayPlan
  total_cost : ℤ
  feasible : Option ℤ
  attempts : ℕ
  replaced : List ℕ
  deriving Repr

/-- Sum of the estimated day costs. -/
def sumCost (l : List DayPlan) : ℤ := (l.map (fun p => p.est_cost)).sum

/-- The generation oracle: argument number of the call to the day maker
    (calls are numbered in order), the protein hint, and the cheap flag.
    It abstracts the make day closure of the source, whose body calls the
    external text-generation provider (nondeterministic) and then filters,
    normalizes and costs the result; the day index of its output is 0
    until the planner sets it. -/
def MkDay : Type := ℕ → String → Bool → DayPlan

/-- First pass of the planner: one day per index, hints rotating through
    the chosen rotation, day indices 1..n. -/
def firstPass (mk : MkDay) (rot : List String) (n : ℕ) : List DayPlan :=
  (List.range n).map fun i =>
    { mk i (rot.getD (i % rot.length) "") false with day_index := i + 1 }

/-- A replacement candidate for the day with the given index, generated
    with the cheap hint and the cheap rotation. -/
def mkCheapDay (mk : MkDay) (cnt : ℕ) (i : ℕ) : DayPlan :=
  { mk cnt (PROTEIN_ROTATION_CHEAP.getD ((i - 1) % PROTEIN_ROTATION_CHEAP.length) "") true with
    day_index := i }

/-- One re-optimization attempt: sort by descending cost (stable, like
    Python's sort with reverse), regenerate the two most expensive days
    with cheap hints, keep a regenerated day only if strictly cheaper.
    Returns (new plans, whether anything changed, next call number,
    replaced day indices). -/
def attemptOnce (mk : MkDay) (cnt : ℕ) (plans : List DayPlan) :
    List DayPlan × Bool × ℕ × List ℕ :=
  let sorted := plans.mergeSort (fun a b => b.est_cost ≤ a.est_cost)
  match sorted with
  | [] => ([], false, cnt, [])
  | [p0] =>
    let nd0 := mkCheapDay mk cnt p0.day_index
    if nd0.est_cost < p0.est_cost then ([nd0], true, cnt + 1, [p0.day_index])
    else ([p0], false, cnt + 1, [])
  | p0 :: p1 :: rest =>
    let nd0 := mkCheapDay mk cnt p0.day_index
    let k0 := if nd0.est_cost < p0.est_cost then (nd0, true, [p0.day_index]) else (p0, false, [])
    let nd1 := mkCheapDay mk (cnt + 1) p1.day_index
    let k1 := if nd1.est_cost < p1.est_cost then (nd1, true, [p1.day_index]) else (p1, false, [])
    (k0.1 :: k1.1 :: rest, k0.2.1 || k1.2.1, cnt + 2, k0.2.2 ++ k1.2.2)

/-- The bounded re-optimization loop; on exit (attempts exhausted, budget
    reached, or no improvement) the final budget check of the source
    decides whether a minimum feasible budget is reported. -/
def replanLoop (mk : MkDay) (budget : ℤ) :
    ℕ → ℕ → List DayPlan → ℕ → List ℕ → WeekResult
  | 0, _cnt, plans, used, reps =>
    let total := sumCost plans
    if total ≤ budget then ⟨plans, total, none, used, reps⟩
    else ⟨plans, total, some total, used, reps⟩
  | fuel + 1, cnt, plans, used, reps =>
    let step := attemptOnce mk cnt plans
    let total := sumCost step.1
    if total ≤ budget then ⟨step.1, total, none, used + 1, reps ++ step.2.2.2⟩
    else if !step.2.1 then ⟨step.1, total, some total, used + 1, reps ++ step.2.2.2⟩
    else replanLoop mk budget fuel step.2.2.1 step.1 (used + 1) (reps ++ step.2.2.2)

/-- Source: plan week.  The servings, theme, genre, time, price-factor,
    child-mode and keyword parameters act only inside the day maker and
    are folded into the oracle. -/
def plan_week (mk : MkDay) (num_days : ℕ) (budget_yen : ℤ) (prefer_cheap : Bool) : WeekResult :=
  let rot := if prefer_cheap then PROTEIN_ROTATION_CHEAP else PROTEIN_ROTATION_DEFAULT
  let plans := firstPass mk rot num_days
  let total := sumCost plans
  if total ≤ budget_yen then ⟨plans, total, none, 0, []⟩
  else replanLoop mk budget_yen WEEK_REPLAN_ATTEMPTS num_days plans 0 []

-- ==================================================================
-- Conditions used by the claims
-- ==================================================================

/-- The three scored ranges of a profile, as a list. -/
def rangesOf (p : ProfileRanges) : List (ℚ × ℚ) := [p.kcal, p.protein_g, p.salt_g]

/-- Stability of a normalized name: re-splitting the resulting name finds
    no quantity token. -/
def nameStable (n : String) : Bool :=
  ((split_quantity_from_name (split_quantity_from_name n).1).2).isNone

/-- Stability of a normalized ingredient under a further normalization
    pass: the name carries no quantity token and is fixed by the
    splitter, and the amount either is sanitize-stable and usable, or is
    the to-taste sentinel with a name the guesser cannot resolve. -/
def ingStable (servings : ℕ) (ing : Ingredient) : Bool :=
  ((split_quantity_from_name ing.name).2).isNone &&
  ((split_quantity_from_name ing.name).1 == ing.name) &&
  (match ing.amount with
   | some a =>
     (sanitize_amount (some a) == some a && !amountUnusable a) ||
     (a == "適量" && guess_amount ing.name servings == "適量")
   | none => false)

/-- The round trip of claim C4: render, parse, render again. -/
def render_parse_render (u : String) (v : ℚ) : String :=
  let s := unit_value_to_amount u v
  let p := amount_to_unit_value s
  unit_value_to_amount p.1 p.2

/-- Domain on which the render/parse round trip is stable: spoon values
    whose half-rounding is positive (and small enough that the float
    format of the source prints a plain decimal), gram values whose
    rounded display value is positive and a fixed point of the gram
    pretty-rounding (this excludes exactly the displays 0g and 60g), and
    piece values that are nonnegative exact tenths (again small enough to
    print plainly). -/
def c4ok (u : String) (v : ℚ) : Bool :=
  (u == "tbsp" && decide (0 < roundHalf v) && decide (roundHalf v ≤ 10000)) ||
  (u == "tsp" && decide (0 < roundHalf v) && decide (roundHalf v ≤ 10000)) ||
  (u == "g" && decide (0 < v) &&
    (decide (0 < gramsPrettyVal (roundHalfEven v)) &&
     gramsPrettyVal (gramsPrettyVal (roundHalfEven v)) == gramsPrettyVal (roundHalfEven v))) ||
  (u == "piece" && decide (0 ≤ v) && (qshift v 1).den == 1 && decide (v < 10000))

/-- The scanning stage of amount_to_unit_value, after preprocessing: the
    unit markers tried in priority order on an explicit character list. -/
def scanAmount (l : List Char) : String × ℚ :=
  match scanMarkerNum "大さじ".toList l with
  | some q => ("tbsp", q)
  | none =>
    match scanMarkerNum "小さじ".toList l with
    | some q => ("tsp", q)
    | none =>
      match scanNumUnit ["g".toList] l with
      | some q => ("g", q)
      | none =>
        match scanNumUnit ["個".toList] l with
        | some q => ("piece", q)
        | none => ("", 0)

-- ==================================================================
-- ==================================================================
-- Theorems
-- ==================================================================
-- ==================================================================

-- ------------------------------------------------------------------
-- C3: profile scorer below 90 percent of the low bound
-- ------------------------------------------------------------------

/-- Claim C3 (code-bug evidence): the spec says a nutrition value
    strictly below 0.9 times the low bound scores out of range, but the
    scorer returns the borderline mark there: at value 1 against the
    normal-profile kcal range [500, 800] (1 is far below 0.9 times 500)
    the mark is the borderline triangle, not the out-of-range sign.  The
    below-90-percent branch of the source is otherwise dead code (the
    later branch would give the same triangle), so the branch was clearly
    meant to return the out-of-range mark. -/
theorem score_below_ninety_percent_marks_borderline :
    markQ 1 (500, 800) = "△" ∧ ((1 : ℚ) < qmul 500 (qc 9 10)) ∧
    (score_against_profile ⟨1, 25, 1⟩ "ふつう").1 = "△" ∧ ("△" : String) ≠ "⚠" := by
  refine ⟨by decide, by decide, by decide, by decide⟩

-- ------------------------------------------------------------------
-- C7: canonicalization priority order and unit vocabulary
-- ------------------------------------------------------------------

/-- Claim C7 (counterexample): the claim says a milliliter- or
    cc-denominated string yields a volume value and a cup-denominated
    string converts at 200 ml, but the canonicalizer recognizes none of
    them: they all fall through to the empty unit with value zero. -/
theorem amount_to_unit_value_ml_unrecognized :
    amount_to_unit_value "200ml" = ("", 0) ∧
    amount_to_unit_value "200cc" = ("", 0) ∧
    amount_to_unit_value "1カップ" = ("", 0) ∧
    amount_to_unit_value "2片" = ("", 0) := by
  refine ⟨by decide, by decide, by decide, by decide⟩

/-- Claim C7 (amended): amount to unit value pattern-matches in priority
    order tablespoon, teaspoon, gram, piece only, with no
    milliliter/cc/cup/half-piece handling; the estimator-side
    canonicalizer (amount to grams or spoons) matches gram first, then
    tablespoon, teaspoon, piece, and half-piece at 0.5 piece per unit,
    and it also recognizes no milliliter, cc or cup string. -/
theorem unit_priority_actual :
    amount_to_unit_value "大さじ2" = ("tbsp", 2) ∧
    amount_to_unit_value "小さじ1.5" = ("tsp", qc 3 2) ∧
    amount_to_unit_value "100g" = ("g", 100) ∧
    amount_to_unit_value "3個" = ("piece", 3) ∧
    amount_to_unit_value "大さじ1 15g" = ("tbsp", 1) ∧
    amount_to_unit_value "小さじ2 10g" = ("tsp", 2) ∧
    amount_to_unit_value "100g 2個" = ("g", 100) ∧
    amount_to_unit_value "200ml" = ("", 0) ∧
    amount_to_grams_or_spoons "大さじ1 15g" = ("g", 15) ∧
    amount_to_grams_or_spoons "大さじ2" = ("tbsp", 2) ∧
    amount_to_grams_or_spoons "小さじ1 3個" = ("tsp", 1) ∧
    amount_to_grams_or_spoons "2片" = ("piece", 1) ∧
    amount_to_grams_or_spoons "1片" = ("piece", qc 1 2) ∧
    amount_to_grams_or_spoons "200ml" = ("g", 0) ∧
    amount_to_grams_or_spoons "1カップ" = ("g", 0) := by
  refine ⟨by decide, by decide, by decide, by decide, by decide, by decide, by decide,
    by decide, by decide, by decide, by decide, by decide, by decide, by decide, by decide⟩

-- ------------------------------------------------------------------
-- C8: the 梅肉 200g scenario
-- ------------------------------------------------------------------

/-- Claim C8 (counterexample): the claim says the quality gate fails
    the one-ingredient no-step 梅肉 200g recipe with exactly three
    reasons and no basic-seasoning reason; in fact the ingredient text
    contains no seasoning keyword either, so the gate emits four
    reasons, the basic-seasoning reason among them. -/
theorem quality_check_umeniku_four_reasons_cx :
    (quality_check ⟨"梅肉レシピ", 2, none, none, [⟨"梅肉 200g", none, false, none⟩], [], none⟩).2.length = 4 ∧
    (quality_check ⟨"梅肉レシピ", 2, none, none, [⟨"梅肉 200g", none, false, none⟩], [], none⟩).2.contains
      "基本的な調味が見当たりません（塩・しょうゆ・みりん等）" = true := by
  refine ⟨by decide, by decide⟩

/-- Claim C8 (amended): the gate fails that recipe with exactly four
    reasons, in order: too few ingredients, too few steps, no heat
    marker, no basic seasoning; the vague-amount reason is not emitted
    (the ingredient text 梅肉 200g None contains no 適量). -/
theorem quality_check_umeniku_exactly_four :
    quality_check ⟨"梅肉レシピ", 2, none, none, [⟨"梅肉 200g", none, false, none⟩], [], none⟩ =
      (false,
       ["材料が少なすぎます（3品以上を推奨）",
        "手順が少なすぎます（3ステップ以上を推奨）",
        "加熱の記述がありません（弱火/中火/強火 や レンジ時間の明示を推奨）",
        "基本的な調味が見当たりません（塩・しょうゆ・みりん等）"]) := by
  decide

-- ------------------------------------------------------------------
-- C9: profile scoring boundaries
-- ------------------------------------------------------------------

/-- Claim C9 (counterexample): the claim says that for every profile
    range a value equal to 0.899 times the low bound scores strictly
    below excellent; but the salt range of the normal profile has low
    bound 0, and 0.899 times 0 is 0, which sits inside the range and
    scores excellent. -/
theorem markQ_zero_low_boundary_cx :
    ("ふつう", futsuRanges) ∈ NUTRI_PROFILES ∧ futsuRanges.salt_g = (0, qc 5 2) ∧
    markQ (qmul 0 (qc 899 1000)) (0, qc 5 2) = "◎" := by
  refine ⟨by decide, by decide, by decide⟩

/-- Claim C9 (amended): for every range of every named profile, a value
    exactly at the low or the high bound scores excellent and a value at
    exactly 1.15 times the high bound scores borderline; and for every
    such range whose low bound is strictly positive (all but the salt
    ranges, whose low bound is 0), a value at 0.899 times the low bound
    scores borderline, hence strictly below excellent. -/
theorem profile_boundary_marks :
    ∀ pr ∈ NUTRI_PROFILES, ∀ rng ∈ rangesOf pr.2,
      markQ rng.1 rng = "◎" ∧ markQ rng.2 rng = "◎" ∧
      markQ (qmul rng.2 (qc 23 20)) rng = "△" ∧
      (0 < rng.1 → markQ (qmul rng.1 (qc 899 1000)) rng = "△") := by
  decide

/-- Witness for the amended C9 theorem at the normal-profile kcal
    range. -/
theorem profile_boundary_marks_witness :
    (("ふつう", futsuRanges) ∈ NUTRI_PROFILES ∧ ((500 : ℚ), (800 : ℚ)) ∈ rangesOf futsuRanges) ∧
    (markQ 500 (500, 800) = "◎" ∧ markQ 800 (500, 800) = "◎" ∧
     markQ (qmul 800 (qc 23 20)) (500, 800) = "△" ∧
     markQ (qmul 500 (qc 899 1000)) (500, 800) = "△") := by
  refine ⟨⟨by decide, by decide⟩, ?_⟩
  have h := profile_boundary_marks ("ふつう", futsuRanges) (by decide) (500, 800) (by decide)
  exact ⟨h.1, h.2.1, h.2.2.1, h.2.2.2 (by decide)⟩

-- ------------------------------------------------------------------
-- C2: the planner accepts a first pass within budget
-- ------------------------------------------------------------------

/-- Claim C2: whenever the total cost of the first pass is within the
    requested budget, the planner returns that first pass as is: zero
    re-optimization attempts, no day replaced, and no minimum-feasible
    budget reported. -/
theorem plan_week_first_pass_accepted (mk : MkDay) (n : ℕ) (b : ℤ) (pc : Bool)
    (h : sumCost (firstPass mk (if pc then PROTEIN_ROTATION_CHEAP else PROTEIN_ROTATION_DEFAULT) n) ≤ b) :
    plan_week mk n b pc =
      ⟨firstPass mk (if pc then PROTEIN_ROTATION_CHEAP else PROTEIN_ROTATION_DEFAULT) n,
       sumCost (firstPass mk (if pc then PROTEIN_ROTATION_CHEAP else PROTEIN_ROTATION_DEFAULT) n),
       none, 0, []⟩ := by
  unfold plan_week
  rw [if_pos h]

/-- Witness for C2 at a constant oracle, three days, budget 1000. -/
theorem plan_week_first_pass_accepted_witness :
    (sumCost (firstPass (fun _ _ _ => ⟨0, ⟨"r", 2, none, none, [], [], none⟩, 100⟩)
        (if false then PROTEIN_ROTATION_CHEAP else PROTEIN_ROTATION_DEFAULT) 3) ≤ (1000 : ℤ)) ∧
    plan_week (fun _ _ _ => ⟨0, ⟨"r", 2, none, none, [], [], none⟩, 100⟩) 3 1000 false =
      ⟨firstPass (fun _ _ _ => ⟨0, ⟨"r", 2, none, none, [], [], none⟩, 100⟩)
         (if false then PROTEIN_ROTATION_CHEAP else PROTEIN_ROTATION_DEFAULT) 3,
       sumCost (firstPass (fun _ _ _ => ⟨0, ⟨"r", 2, none, none, [], [], none⟩, 100⟩)
         (if false then PROTEIN_ROTATION_CHEAP else PROTEIN_ROTATION_DEFAULT) 3),
       none, 0, []⟩ :=
  ⟨by decide, plan_week_first_pass_accepted _ 3 1000 false (by decide)⟩

-- ------------------------------------------------------------------
-- C10: day indices are a permutation of 1..n
-- ------------------------------------------------------------------

theorem firstPass_map_idx (mk : MkDay) (rot : List String) (n : ℕ) :
    (firstPass mk rot n).map (fun p => p.day_index) = List.range' 1 n := by
  unfold firstPass
  rw [List.map_map, List.range'_eq_map_range]
  apply List.map_congr_left
  intro i _
  simp [Nat.add_comm]

theorem attemptOnce_map_idx_eq (mk : MkDay) (cnt : ℕ) (plans : List DayPlan) :
    ((attemptOnce mk cnt plans).1).map (fun p => p.day_index) =
      (plans.mergeSort (fun a b => b.est_cost ≤ a.est_cost)).map (fun p => p.day_index) := by
  unfold attemptOnce
  cases hsort : plans.mergeSort (fun a b => b.est_cost ≤ a.est_cost) with
  | nil => simp
  | cons p0 tail =>
    cases tail with
    | nil => dsimp only; split <;> simp [mkCheapDay]
    | cons p1 rest => dsimp only; split <;> split <;> simp [mkCheapDay]

theorem attemptOnce_map_idx (mk : MkDay) (cnt : ℕ) (plans : List DayPlan) :
    (((attemptOnce mk cnt plans).1).map (fun p => p.day_index)).Perm
      (plans.map (fun p => p.day_index)) := by
  rw [attemptOnce_map_idx_eq]
  exact (List.mergeSort_perm plans (fun a b => b.est_cost ≤ a.est_cost)).map _

theorem replanLoop_map_idx (mk : MkDay) (budget : ℤ) :
    ∀ (fuel cnt : ℕ) (plans : List DayPlan) (used : ℕ) (reps : List ℕ),
      (((replanLoop mk budget fuel cnt plans used reps).plans).map (fun p => p.day_index)).Perm
        (plans.map (fun p => p.day_index)) := by
  intro fuel
  induction fuel with
  | zero =>
    intro cnt plans used reps
    unfold replanLoop
    dsimp only
    split <;> exact List.Perm.refl _
  | succ fuel ih =>
    intro cnt plans used reps
    unfold replanLoop
    dsimp only
    split
    · exact attemptOnce_map_idx mk cnt plans
    · split
      · exact attemptOnce_map_idx mk cnt plans
      · exact ((ih _ _ _ _).trans (attemptOnce_map_idx mk cnt plans))

/-- Claim C10: for at least one day, the planner returns exactly
    num-days day plans whose indices are exactly 1..num-days, each once:
    re-optimization replaces a day only by a plan with the same index,
    never duplicating, dropping or renumbering a day. -/
theorem plan_week_day_indices_perm (mk : MkDay) (n : ℕ) (b : ℤ) (pc : Bool)
    (_h : 1 ≤ n) :
    (plan_week mk n b pc).plans.length = n ∧
    ((plan_week mk n b pc).plans.map (fun p => p.day_index)).Perm (List.range' 1 n) := by
  have key : ∀ rot : List String,
      (((if sumCost (firstPass mk rot n) ≤ b then
          (⟨firstPass mk rot n, sumCost (firstPass mk rot n), none, 0, []⟩ : WeekResult)
         else replanLoop mk b WEEK_REPLAN_ATTEMPTS n (firstPass mk rot n) 0 []).plans).map
        (fun p => p.day_index)).Perm (List.range' 1 n) := by
    intro rot
    split
    · rw [firstPass_map_idx]
    · rw [← firstPass_map_idx mk rot n]
      exact replanLoop_map_idx mk b WEEK_REPLAN_ATTEMPTS n (firstPass mk rot n) 0 []
  have hperm : ((plan_week mk n b pc).plans.map (fun p => p.day_index)).Perm (List.range' 1 n) := by
    show (((if sumCost (firstPass mk (if pc then PROTEIN_ROTATION_CHEAP else PROTEIN_ROTATION_DEFAULT) n) ≤ b then
        (⟨firstPass mk (if pc then PROTEIN_ROTATION_CHEAP else PROTEIN_ROTATION_DEFAULT) n,
          sumCost (firstPass mk (if pc then PROTEIN_ROTATION_CHEAP else PROTEIN_ROTATION_DEFAULT) n),
          none, 0, []⟩ : WeekResult)
       else replanLoop mk b WEEK_REPLAN_ATTEMPTS n
         (firstPass mk (if pc then PROTEIN_ROTATION_CHEAP else PROTEIN_ROTATION_DEFAULT) n) 0 []).plans).map
      (fun p => p.day_index)).Perm (List.range' 1 n)
    exact key _
  refine ⟨?_, hperm⟩
  have := hperm.length_eq
  simpa using this

/-- Witness for C10 with a constant oracle, two days and budget 0 (which
    drives the re-optimization path). -/
theorem plan_week_day_indices_perm_witness :
    1 ≤ 2 ∧
    ((plan_week (fun _ _ _ => ⟨0, ⟨"r", 2, none, none, [], [], none⟩, 100⟩) 2 0 false).plans.map
      (fun p => p.day_index)).Perm (List.range' 1 2) :=
  ⟨by decide, (plan_week_day_indices_perm _ 2 0 false (by decide)).2⟩

-- ------------------------------------------------------------------
-- C1: substring and join lemmas for the quality gate
-- ------------------------------------------------------------------

theorem infixL_nil_pat (l : List Char) : infixL [] l = true := by
  cases l <;> simp [infixL, startsWithL]

theorem startsWithL_append (p l b : List Char) (h : startsWithL p l = true) :
    startsWithL p (l ++ b) = true := by
  induction p generalizing l with
  | nil => simp [startsWithL]
  | cons q ps ih =>
    cases l with
    | nil => simp [startsWithL] at h
    | cons c cs =>
      simp only [startsWithL, Bool.and_eq_true, beq_iff_eq] at h
      simp only [List.cons_append, startsWithL, Bool.and_eq_true, beq_iff_eq]
      exact ⟨h.1, ih cs h.2⟩

theorem startsWithL_split :
    ∀ (p u : List Char) (j : Char) (w : List Char),
      j ∉ p → startsWithL p (u ++ j :: w) = true → startsWithL p u = true := by
  intro p
  induction p with
  | nil => intro u j w _ _; simp [startsWithL]
  | cons q ps ih =>
    intro u j w hj h
    cases u with
    | nil =>
      simp only [List.nil_append, startsWithL, Bool.and_eq_true, beq_iff_eq] at h
      exact absurd (h.1 ▸ List.mem_cons_self q ps) hj
    | cons c cs =>
      simp only [List.cons_append, startsWithL, Bool.and_eq_true, beq_iff_eq] at h
      simp only [startsWithL, Bool.and_eq_true, beq_iff_eq]
      exact ⟨h.1, ih cs j w (fun hm => hj (List.mem_cons_of_mem _ hm)) h.2⟩

theorem infixL_of_startsWith (p l : List Char) (h : startsWithL p l = true) :
    infixL p l = true := by
  cases l with
  | nil =>
    cases p with
    | nil => simp [infixL]
    | cons q ps => simp [startsWithL] at h
  | cons c cs => simp [infixL, h]

theorem infixL_append_left (p a b : List Char) (h : infixL p a = true) :
    infixL p (a ++ b) = true := by
  induction a with
  | nil =>
    simp only [infixL, List.isEmpty_iff] at h
    subst h
    exact infixL_nil_pat b
  | cons c cs ih =>
    simp only [infixL, Bool.or_eq_true] at h
    simp only [List.cons_append, infixL, Bool.or_eq_true]
    cases h with
    | inl h => exact Or.inl (by simpa using startsWithL_append p (c :: cs) b h)
    | inr h => exact Or.inr (ih h)

theorem infixL_append_right (p a b : List Char) (h : infixL p b = true) :
    infixL p (a ++ b) = true := by
  induction a with
  | nil => simpa using h
  | cons c cs ih =>
    simp only [List.cons_append, infixL, Bool.or_eq_true]
    exact Or.inr ih

theorem infixL_split :
    ∀ (a p : List Char) (j : Char) (b : List Char),
      p ≠ [] → j ∉ p → infixL p (a ++ j :: b) = true →
      infixL p a = true ∨ infixL p b = true := by
  intro a
  induction a with
  | nil =>
    intro p j b hp hj h
    simp only [List.nil_append, infixL, Bool.or_eq_true] at h
    cases h with
    | inl h =>
      cases p with
      | nil => exact absurd rfl hp
      | cons q ps =>
        simp only [startsWithL, Bool.and_eq_true, beq_iff_eq] at h
        exact absurd (h.1 ▸ List.mem_cons_self q ps) hj
    | inr h => exact Or.inr h
  | cons c cs ih =>
    intro p j b hp hj h
    simp only [List.cons_append, infixL, Bool.or_eq_true] at h
    cases h with
    | inl h =>
      have h2 : startsWithL p (c :: cs) = true := by
        have := startsWithL_split p (c :: cs) j b hj (by simpa using h)
        exact this
      exact Or.inl (infixL_of_startsWith p (c :: cs) h2)
    | inr h =>
      cases ih p j b hp hj h with
      | inl h3 =>
        refine Or.inl ?_
        simp only [infixL, Bool.or_eq_true]
        exact Or.inr h3
      | inr h3 => exact Or.inr h3

theorem infixL_joinSep :
    ∀ (l : List (List Char)) (p : List Char) (j : Char),
      p ≠ [] → j ∉ p →
      (infixL p (joinSep [j] l) = true ↔ ∃ x ∈ l, infixL p x = true) := by
  intro l
  induction l with
  | nil =>
    intro p j hp _
    constructor
    · intro h
      cases p with
      | nil => exact absurd rfl hp
      | cons q ps => simp [joinSep, infixL] at h
    · rintro ⟨x, hx, _⟩
      simp at hx
  | cons x xs ih =>
    intro p j hp hj
    cases xs with
    | nil =>
      constructor
      · intro h; exact ⟨x, by simp, by simpa [joinSep] using h⟩
      · rintro ⟨z, hz, hinf⟩
        simp only [List.mem_singleton] at hz
        subst hz
        simpa [joinSep] using hinf
    | cons y ys =>
      have hshape : joinSep [j] (x :: y :: ys) = x ++ j :: joinSep [j] (y :: ys) := by
        simp [joinSep]
      constructor
      · intro h
        rw [hshape] at h
        cases infixL_split x p j (joinSep [j] (y :: ys)) hp hj h with
        | inl h2 => exact ⟨x, by simp, h2⟩
        | inr h2 =>
          obtain ⟨z, hz, hinf⟩ := (ih p j hp hj).mp h2
          exact ⟨z, List.mem_cons_of_mem _ hz, hinf⟩
      · rintro ⟨z, hz, hinf⟩
        rw [hshape]
        rcases List.mem_cons.mp hz with hz1 | hz2
        · subst hz1
          exact infixL_append_left p z (j :: joinSep [j] (y :: ys)) hinf
        · have h2 : infixL p (joinSep [j] (y :: ys)) = true :=
            (ih p j hp hj).mpr ⟨z, hz2, hinf⟩
          exact infixL_append_right p x (j :: joinSep [j] (y :: ys))
            (by simp only [infixL, Bool.or_eq_true]; exact Or.inr h2)

theorem heat_any_iff (rec : Recipe) :
    (HEAT_WORDS.any (fun w => pyIn w (step_text rec)) = true) ↔
      ∃ st ∈ rec.steps, ∃ w ∈ HEAT_WORDS, pyIn w st.text = true := by
  have hwords : ∀ w ∈ HEAT_WORDS, w.toList ≠ [] ∧ '。' ∉ w.toList := by decide
  simp only [List.any_eq_true]
  constructor
  · rintro ⟨w, hw, hin⟩
    have hok := hwords w hw
    have hin2 : infixL w.toList (joinSep ['。'] (rec.steps.map (fun s => s.text.toList))) = true :=
      hin
    obtain ⟨x, hx, hinf⟩ := (infixL_joinSep _ _ _ hok.1 hok.2).mp hin2
    obtain ⟨st, hst, hxeq⟩ := List.mem_map.mp hx
    refine ⟨st, hst, w, hw, ?_⟩
    show infixL w.toList st.text.toList = true
    rw [hxeq]
    exact hinf
  · rintro ⟨st, hst, w, hw, hin⟩
    have hok := hwords w hw
    refine ⟨w, hw, ?_⟩
    show infixL w.toList (joinSep ['。'] (rec.steps.map (fun s => s.text.toList))) = true
    exact (infixL_joinSep _ _ _ hok.1 hok.2).mpr
      ⟨st.text.toList, List.mem_map.mpr ⟨st, hst, rfl⟩, hin⟩

/-- Claim C1: the quality gate passes exactly when all five checks hold
    simultaneously (at least three ingredients, at least three steps, a
    heat-process marker in some step, a basic-seasoning marker in the
    concatenated name-and-amount ingredient text, and no to-taste
    sentinel in that text), and on failure it returns one human-readable
    reason per failed check. -/
theorem quality_check_pass_iff (rec : Recipe) :
    ((quality_check rec).1 = true ↔
      (3 ≤ rec.ingredients.length ∧ 3 ≤ rec.steps.length ∧
       (∃ st ∈ rec.steps, ∃ w ∈ HEAT_WORDS, pyIn w st.text = true) ∧
       (∃ w ∈ SEASONINGS, pyIn w (ing_text rec) = true) ∧
       pyIn "適量" (ing_text rec) = false))
    ∧ ((quality_check rec).2.length =
        (if 3 ≤ rec.ingredients.length then 0 else 1) +
        (if 3 ≤ rec.steps.length then 0 else 1) +
        (if ∃ st ∈ rec.steps, ∃ w ∈ HEAT_WORDS, pyIn w st.text = true then 0 else 1) +
        (if ∃ w ∈ SEASONINGS, pyIn w (ing_text rec) = true then 0 else 1) +
        (if pyIn "適量" (ing_text rec) = true then 1 else 0)) := by
  have hheat := heat_any_iff rec
  have hseason : (SEASONINGS.any (fun s => pyIn s (ing_text rec)) = true) ↔
      (∃ w ∈ SEASONINGS, pyIn w (ing_text rec) = true) := List.any_eq_true
  have h1b : (rec.ingredients.length < 3) ↔ ¬ (3 ≤ rec.ingredients.length) := by omega
  have h2b : (rec.steps.length < 3) ↔ ¬ (3 ≤ rec.steps.length) := by omega
  simp only [← hheat, ← hseason]
  by_cases h1 : 3 ≤ rec.ingredients.length <;>
  by_cases h2 : 3 ≤ rec.steps.length <;>
  by_cases h3 : HEAT_WORDS.any (fun w => pyIn w (step_text rec)) = true <;>
  by_cases h4 : SEASONINGS.any (fun s => pyIn s (ing_text rec)) = true <;>
  by_cases h5 : pyIn "適量" (ing_text rec) = true <;>
  simp [quality_check, h1b, h2b, h1, h2, h3, h4, h5]

-- ------------------------------------------------------------------
-- C5: idempotence of normalization
-- ------------------------------------------------------------------

/-- Claim C5 (counterexample): normalizing twice is not always a no-op.
    For the ingredient named x 7 5g g (no amount), removing the quantity
    token 5g glues 7 and g together into the new quantity token 7 g, so
    the first pass returns the name x 7 g, and the second pass strips
    that token too, returning the name x: the two passes disagree. -/
theorem normalize_not_idempotent_cx :
    normalize_ingredients
        (normalize_ingredients [⟨"x 7 5g g", none, false, none⟩] 2 false 1) 2 false 1 ≠
      normalize_ingredients [⟨"x 7 5g g", none, false, none⟩] 2 false 1 := by
  decide

theorem normalize_ingredient_fix (s : ℕ) (cf : ℚ) (i : Ingredient)
    (hi : ingStable s i = true) :
    normalize_ingredient s false cf i = i := by
  obtain ⟨nm, amt, opt, sub⟩ := i
  simp only [ingStable, Bool.and_eq_true] at hi
  obtain ⟨⟨h1, h2⟩, h3⟩ := hi
  have hbq : split_quantity_from_name nm = (nm, none) := by
    rcases hsp : split_quantity_from_name nm with ⟨b, q⟩
    rw [hsp] at h1 h2
    simp only [Option.isNone_iff_eq_none] at h1
    simp only [beq_iff_eq] at h2
    rw [h1, h2]
  cases amt with
  | none => simp at h3
  | some a =>
    simp only [Bool.or_eq_true, Bool.and_eq_true, beq_iff_eq, Bool.not_eq_true] at h3
    unfold normalize_ingredient
    rw [hbq]
    cases h3 with
    | inl hA =>
      obtain ⟨hsan, husable⟩ := hA
      have hus : amountUnusable a = false := by simpa using husable
      have hae : a.isEmpty = false := by
        cases hae2 : a.isEmpty with
        | false => rfl
        | true => rw [sanitize_amount, if_pos hae2] at hsan; exact absurd hsan (by simp)
      simp [firstTruthy, truthy, hus, hsan, hae]
    | inr hB =>
      obtain ⟨haeq, hguess⟩ := hB
      subst haeq
      have hs1 : sanitize_amount (some "適量") = some "適量" := by decide
      have hs2 : amountUnusable "適量" = true := by decide
      have hne : ("適量" : String).isEmpty = false := by decide
      simp [firstTruthy, truthy, hs1, hs2, hguess, hne]

theorem normalize_stable_fix (s : ℕ) (cf : ℚ) (l : List Ingredient)
    (h : ∀ i ∈ l, ingStable s i = true) :
    normalize_ingredients l s false cf = l := by
  unfold normalize_ingredients
  have hcongr : ∀ i ∈ l, normalize_ingredient s false cf i = id i := by
    intro i hi
    exact normalize_ingredient_fix s cf i (h i hi)
  rw [List.map_congr_left hcongr, List.map_id]

/-- Claim C5 (amended): normalization is idempotent whenever child mode
    is off and every output of the first pass is stable in the sense of
    ingStable: its name carries no quantity token and is fixed by the
    splitter, and its amount is sanitize-stable and usable, or is the
    to-taste sentinel on a name the quantity guesser cannot resolve.
    These conditions hold for all ordinary recipe data; the
    counterexamples are names whose token removal creates a new token
    (and, for child mode, the condiment scaling that is applied again on
    every pass). -/
theorem normalize_idempotent_on_stable (ings : List Ingredient) (s : ℕ) (cf : ℚ)
    (h : ∀ i ∈ normalize_ingredients ings s false cf, ingStable s i = true) :
    normalize_ingredients (normalize_ingredients ings s false cf) s false cf =
      normalize_ingredients ings s false cf :=
  normalize_stable_fix s cf _ h

/-- Witness for the amended C5 theorem. -/
theorem normalize_idempotent_on_stable_witness :
    (∀ i ∈ normalize_ingredients [⟨"豚肉", some "200g", false, none⟩] 2 false 1,
        ingStable 2 i = true) ∧
    normalize_ingredients
        (normalize_ingredients [⟨"豚肉", some "200g", false, none⟩] 2 false 1) 2 false 1 =
      normalize_ingredients [⟨"豚肉", some "200g", false, none⟩] 2 false 1 :=
  ⟨by decide, normalize_idempotent_on_stable _ 2 1 (by decide)⟩

-- ------------------------------------------------------------------
-- C6: invariants of normalized ingredients
-- ------------------------------------------------------------------

/-- Claim C6 (counterexample): both halves of the claimed invariant can
    fail.  A name that is nothing but a quantity token (5g) keeps its
    token, because the splitter falls back to the original name when the
    stripped base is empty; and in child mode the condiment scaling is
    applied after the zero-form collapse, so 塩 4g scaled by 0.8 renders
    the explicit zero form 0g (4 times 0.8 rounds to 3, which the gram
    pretty-printer rounds down to 0). -/
theorem normalize_invariant_cx :
    (normalize_ingredients [⟨"5g", none, false, none⟩] 2 false 1 =
        [⟨"5g", some "5g", false, none⟩] ∧
      (split_quantity_from_name "5g").2 ≠ none) ∧
    (normalize_ingredients [⟨"塩", some "4g", false, none⟩] 2 true (qc 4 5) =
        [⟨"塩", some "0g", false, none⟩] ∧
      "0g" ∈ ZERO_FORMS) := by
  refine ⟨⟨by decide, by decide⟩, ⟨by decide, by decide⟩⟩

theorem firstTruthy_sanitize_ok (x : String) :
    firstTruthy (sanitize_amount (some x)) (some "適量") ≠ "" ∧
    ∀ z ∈ ZERO_FORMS, firstTruthy (sanitize_amount (some x)) (some "適量") ≠ z := by
  rcases hs : sanitize_amount (some x) with _ | s
  · refine ⟨by decide, ?_⟩
    intro z hz
    fin_cases hz <;> decide
  · have hnz : ∀ z ∈ ZERO_FORMS, s ≠ z := by
      rw [sanitize_amount] at hs
      split at hs
      · exact absurd hs (by simp)
      · dsimp only at hs
        split at hs
        next hcont =>
          have heq : "少々" = s := by injection hs
          intro z hz
          rw [← heq]
          fin_cases hz <;> decide
        next hcont =>
          have heq : String.mk (pyReplace ".0".toList []
              (pyReplace "．".toList ".".toList (pyStrip x.toList))) = s := by
            injection hs
          intro z hz hcontra
          rw [heq, hcontra] at hcont
          exact hcont (List.elem_eq_true_of_mem hz)
    by_cases hse : s.isEmpty
    · simp [firstTruthy, truthy, hse]
      refine ⟨by decide, ?_⟩
      intro z hz
      fin_cases hz <;> decide
    · simp [firstTruthy, truthy, hse]
      refine ⟨?_, hnz⟩
      intro hcontra
      rw [hcontra] at hse
      exact hse rfl

/-- Claim C6 (amended): with child mode off, every normalized amount is
    a non-empty display string and never an explicit zero-quantity form
    (sanitizing collapses zero forms to the trace sentinel 少々 and the
    empty string to the to-taste fallback 適量); and for every ingredient
    whose name has a stable split, the normalized name contains no
    quantity-token match.  Without the name condition a token can
    survive (name 5g), and in child mode a zero form can be produced
    after sanitizing (塩 4g at factor 0.8 gives 0g). -/
theorem normalize_output_invariant (ings : List Ingredient) (s : ℕ) (cf : ℚ)
    (hname : ∀ i ∈ ings, nameStable i.name = true) :
    ∀ o ∈ normalize_ingredients ings s false cf,
      (o.amount ≠ none ∧ o.amount ≠ some "" ∧ (∀ z ∈ ZERO_FORMS, o.amount ≠ some z)) ∧
      (split_quantity_from_name o.name).2 = none := by
  intro o ho
  obtain ⟨i, hi, heq⟩ := List.mem_map.mp ho
  have hone : normalize_ingredient s false cf i =
      { name := (split_quantity_from_name i.name).1,
        amount := some (firstTruthy
          (sanitize_amount (some (if amountUnusable
              (firstTruthy (sanitize_amount i.amount) (split_quantity_from_name i.name).2)
            then guess_amount (split_quantity_from_name i.name).1 s
            else firstTruthy (sanitize_amount i.amount) (split_quantity_from_name i.name).2)))
          (some "適量")),
        is_optional := i.is_optional, substitution := i.substitution } := rfl
  rw [hone] at heq
  subst heq
  have hok := firstTruthy_sanitize_ok (if amountUnusable
      (firstTruthy (sanitize_amount i.amount) (split_quantity_from_name i.name).2)
    then guess_amount (split_quantity_from_name i.name).1 s
    else firstTruthy (sanitize_amount i.amount) (split_quantity_from_name i.name).2)
  refine ⟨⟨by simp, ?_, ?_⟩, ?_⟩
  · simp only [ne_eq, Option.some.injEq]
    exact hok.1
  · intro z hz
    simp only [ne_eq, Option.some.injEq]
    exact hok.2 z hz
  · have := hname i hi
    simpa [nameStable, Option.isNone_iff_eq_none] using this

/-- Witness for the amended C6 theorem. -/
theorem normalize_output_invariant_witness :
    (∀ i ∈ ([⟨"豚肉 200g", none, false, none⟩] : List Ingredient), nameStable i.name = true) ∧
    (∀ o ∈ normalize_ingredients [⟨"豚肉 200g", none, false, none⟩] 2 false 1,
      (o.amount ≠ none ∧ o.amount ≠ some "" ∧ (∀ z ∈ ZERO_FORMS, o.amount ≠ some z)) ∧
      (split_quantity_from_name o.name).2 = none) :=
  ⟨by decide, normalize_output_invariant _ 2 1 (by decide)⟩

-- ------------------------------------------------------------------
-- C4: the render/parse round trip
-- ------------------------------------------------------------------

/-- Claim C4 (counterexample): the round trip is not stable in general.
    The gram value 58 renders (via the 10-gram bucket) as 60g; parsing
    gives back 60, which now falls in the 25-gram bucket and re-renders
    as 50g. -/
theorem render_parse_render_unstable_cx :
    unit_value_to_amount "g" 58 = "60g" ∧
    amount_to_unit_value "60g" = ("g", 60) ∧
    render_parse_render "g" 58 = "50g" ∧
    render_parse_render "g" 58 ≠ unit_value_to_amount "g" 58 := by
  refine ⟨by decide, by decide, by decide, by decide⟩

-- Bridges between the kernel-computable rational helpers and the field
-- operations.

theorem qc_eq (n d : ℤ) : qc n d = (n : ℚ) / (d : ℚ) := Rat.divInt_eq_div n d

theorem den_cast_ne (a : ℚ) : ((a.den : ℚ)) ≠ 0 := by
  exact_mod_cast a.den_nz

theorem qadd_eq (a b : ℚ) : qadd a b = a + b := by
  rw [qadd, Rat.divInt_eq_div]
  conv_rhs => rw [← Rat.num_div_den a, ← Rat.num_div_den b]
  rw [div_add_div _ _ (den_cast_ne a) (den_cast_ne b)]
  push_cast
  ring_nf

theorem qneg_eq (a : ℚ) : qneg a = -a := by
  rw [qneg, Rat.divInt_eq_div]
  conv_rhs => rw [← Rat.num_div_den a]
  push_cast
  ring_nf

theorem qsub_eq (a b : ℚ) : qsub a b = a - b := by
  rw [qsub, qadd_eq, qneg_eq]
  ring

theorem qmul_eq (a b : ℚ) : qmul a b = a * b := by
  rw [qmul, Rat.divInt_eq_div]
  conv_rhs => rw [← Rat.num_div_den a, ← Rat.num_div_den b]
  rw [div_mul_div_comm]
  push_cast
  ring_nf

theorem qdiv_eq (a b : ℚ) : qdiv a b = a / b := by
  rcases eq_or_ne b 0 with hb | hb
  · subst hb
    show Rat.divInt (a.num * (0:ℚ).den) (a.den * (0:ℚ).num) = a / 0
    simp [Rat.divInt_eq_div]
  · rw [qdiv, Rat.divInt_eq_div]
    have hbn : ((b.num : ℚ)) ≠ 0 := by
      exact_mod_cast Rat.num_ne_zero.mpr hb
    have ha := den_cast_ne a
    have hb2 := den_cast_ne b
    conv_rhs => rw [← Rat.num_div_den a, ← Rat.num_div_den b]
    push_cast
    field_simp

theorem roundHalfEven_intCast (n : ℤ) : roundHalfEven ((n : ℚ)) = n := by
  unfold roundHalfEven
  simp only [Int.floor_intCast, qsub_eq, Rat.divInt_one, qc_eq, sub_self]
  norm_num

theorem qmul_divInt_two (m : ℤ) : qmul (Rat.divInt m 2) 2 = (m : ℚ) := by
  rw [qmul_eq, Rat.divInt_eq_div]
  push_cast
  field_simp

theorem roundHalf_fix (m : ℤ) : roundHalf (Rat.divInt m 2) = Rat.divInt m 2 := by
  unfold roundHalf
  rw [qmul_divInt_two, roundHalfEven_intCast]

theorem divInt_two_pos (m : ℤ) : 0 < Rat.divInt m 2 ↔ 0 < m := by
  have h2 : ((2:ℤ):ℚ) = (2:ℚ) := by norm_num
  rw [Rat.divInt_eq_div, h2, lt_div_iff₀ (by norm_num : (0:ℚ) < 2), zero_mul]
  exact Int.cast_pos

theorem pyTrunc_of_nonneg (q : ℚ) (h : 0 ≤ q) : pyTrunc q = ⌊q⌋ := if_pos h

-- Digit printing and its value

theorem digitChar_mem (d : ℕ) :
    digitChar d ∈ ['0', '1', '2', '3', '4', '5', '6', '7', '8', '9'] := by
  unfold digitChar
  split <;> decide

theorem digitChar_val (d : ℕ) (h : d < 10) : (digitChar d).toNat - 48 = d := by
  interval_cases d <;> decide

theorem natCharsGo_mem (fuel n : ℕ) :
    ∀ c ∈ natCharsGo fuel n, c ∈ ['0', '1', '2', '3', '4', '5', '6', '7', '8', '9'] := by
  induction fuel generalizing n with
  | zero =>
    intro c hc
    simp only [natCharsGo, List.mem_singleton] at hc
    exact hc ▸ digitChar_mem _
  | succ fuel ih =>
    intro c hc
    simp only [natCharsGo] at hc
    split at hc
    · simp only [List.mem_singleton] at hc
      exact hc ▸ digitChar_mem _
    · rcases List.mem_append.mp hc with h1 | h1
      · exact ih _ c h1
      · simp only [List.mem_singleton] at h1
        exact h1 ▸ digitChar_mem _

theorem natChars_mem (n : ℕ) :
    ∀ c ∈ natChars n, c ∈ ['0', '1', '2', '3', '4', '5', '6', '7', '8', '9'] :=
  natCharsGo_mem n n

theorem mem_digits_isDigit (c : Char)
    (h : c ∈ ['0', '1', '2', '3', '4', '5', '6', '7', '8', '9']) : c.isDigit = true := by
  fin_cases h <;> decide

theorem natCharsGo_ne_nil (fuel n : ℕ) : natCharsGo fuel n ≠ [] := by
  cases fuel with
  | zero => simp [natCharsGo]
  | succ fuel =>
    simp only [natCharsGo]
    split
    · simp
    · simp

theorem digitsVal_append_one (ds : List Char) (c : Char) :
    digitsVal (ds ++ [c]) = digitsVal ds * 10 + (c.toNat - 48) := by
  unfold digitsVal
  rw [List.foldl_append]
  rfl

theorem digitsVal_natCharsGo (fuel n : ℕ) (h : n ≤ fuel) :
    digitsVal (natCharsGo fuel n) = n := by
  induction fuel generalizing n with
  | zero =>
    have hn : n = 0 := by omega
    subst hn
    decide
  | succ fuel ih =>
    simp only [natCharsGo]
    split
    · next hlt =>
      show digitsVal [digitChar n] = n
      unfold digitsVal
      simp only [List.foldl_cons, List.foldl_nil]
      have := digitChar_val n hlt
      omega
    · next hge =>
      rw [digitsVal_append_one]
      have h10 : ¬ n < 10 := hge
      have hle : n / 10 ≤ fuel := by omega
      rw [ih _ hle]
      have := digitChar_val (n % 10) (by omega)
      omega

theorem digitsVal_natChars (n : ℕ) : digitsVal (natChars n) = n :=
  digitsVal_natCharsGo n n (Nat.le_refl n)

-- Scanning a numeral at the head of a list

theorem takeWhile_digits (ds r : List Char)
    (hds : ∀ c ∈ ds, c.isDigit = true)
    (hr : ∀ c, r.head? = some c → c.isDigit = false) :
    (ds ++ r).takeWhile Char.isDigit = ds ∧ (ds ++ r).dropWhile Char.isDigit = r := by
  induction ds with
  | nil =>
    simp only [List.nil_append]
    cases r with
    | nil => simp
    | cons c rest =>
      have := hr c rfl
      simp [List.takeWhile_cons, List.dropWhile_cons, this]
  | cons d ds ih =>
    have hd := hds d (by simp)
    have hrest := ih (fun c hc => hds c (by simp [hc]))
    simp [List.takeWhile_cons, List.dropWhile_cons, hd, hrest.1, hrest.2]

theorem scanNumeral_int (ds r : List Char)
    (hne : ds ≠ [])
    (hds : ∀ c ∈ ds, c.isDigit = true)
    (hr : ∀ c, r.head? = some c → c.isDigit = false ∧ c ≠ '.') :
    scanNumeral (ds ++ r) = some ((digitsVal ds : ℚ), r) := by
  have ht := takeWhile_digits ds r hds (fun c hc => (hr c hc).1)
  unfold scanNumeral
  simp only [ht.1, ht.2]
  rw [if_neg (by simpa [List.isEmpty_iff] using hne)]
  cases r with
  | nil => rfl
  | cons c rest =>
    have hc := hr c rfl
    split
    · next r2 heq =>
      rw [List.cons.injEq] at heq
      exact absurd heq.1 hc.2
    · rfl

theorem scanNumeral_frac (ds fs r : List Char)
    (hdne : ds ≠ []) (hfne : fs ≠ [])
    (hds : ∀ c ∈ ds, c.isDigit = true) (hfs : ∀ c ∈ fs, c.isDigit = true)
    (hr : ∀ c, r.head? = some c → c.isDigit = false) :
    scanNumeral (ds ++ '.' :: fs ++ r) =
      some (qadd (digitsVal ds : ℚ) (Rat.divInt (digitsVal fs) ((10:ℤ) ^ fs.length)), r) := by
  have hdot : ∀ c, ('.' :: (fs ++ r)).head? = some c → c.isDigit = false := by
    intro c hc
    simp only [List.head?_cons, Option.some.injEq] at hc
    rw [← hc]
    decide
  have ht := takeWhile_digits ds ('.' :: (fs ++ r)) hds hdot
  have ht2 := takeWhile_digits fs r hfs hr
  unfold scanNumeral
  rw [show ds ++ '.' :: fs ++ r = ds ++ ('.' :: (fs ++ r)) by simp]
  simp only [ht.1, ht.2]
  rw [if_neg (by simpa [List.isEmpty_iff] using hdne)]
  simp only [ht2.1, ht2.2]
  rw [if_neg (by simpa [List.isEmpty_iff] using hfne)]

-- Marker and unit scans on rendered strings

theorem startsWithL_self (p t : List Char) : startsWithL p (p ++ t) = true := by
  induction p with
  | nil => simp [startsWithL]
  | cons q ps ih => simp [startsWithL, ih]

theorem scanMarkerNum_not_present (m0 : Char) (m' cs : List Char) (h : m0 ∉ cs) :
    scanMarkerNum (m0 :: m') cs = none := by
  induction cs with
  | nil => rfl
  | cons c rest ih =>
    have hm0c : (m0 == c) = false := by
      refine beq_eq_false_iff_ne.mpr (fun he => h ?_)
      rw [he]
      exact List.mem_cons_self c rest
    have hstart : startsWithL (m0 :: m') (c :: rest) = false := by
      simp [startsWithL, hm0c]
    have hrest : m0 ∉ rest := fun hm => h (List.mem_cons_of_mem c hm)
    simp only [scanMarkerNum, hstart]
    simp only [Bool.false_eq_true, if_false]
    exact ih hrest

theorem scanMarkerNum_at_head (m0 : Char) (m' rest : List Char) (q : ℚ) (r' : List Char)
    (h : scanNumeral (rest.dropWhile isPySpace) = some (q, r')) :
    scanMarkerNum (m0 :: m') ((m0 :: m') ++ rest) = some q := by
  have hsw := startsWithL_self (m0 :: m') rest
  have hdrop : ((m0 :: m') ++ rest).drop (m0 :: m').length = rest := List.drop_left _ _
  show scanMarkerNum (m0 :: m') (m0 :: (m' ++ rest)) = some q
  simp only [scanMarkerNum]
  rw [show m0 :: (m' ++ rest) = (m0 :: m') ++ rest from rfl, hsw, hdrop]
  simp only [if_true, h]

theorem scanNumeral_rest_subset (cs : List Char) (q : ℚ) (r : List Char)
    (h : scanNumeral cs = some (q, r)) : ∀ c ∈ r, c ∈ cs := by
  unfold scanNumeral at h
  dsimp only at h
  split at h
  · exact absurd h (by simp)
  · split at h
    · next r2 heq =>
      split at h
      · rw [Option.some.injEq, Prod.mk.injEq] at h
        intro c hc
        rw [← h.2] at hc
        exact List.dropWhile_subset _ hc
      · rw [Option.some.injEq, Prod.mk.injEq] at h
        intro c hc
        rw [← h.2] at hc
        have h1 : c ∈ r2 := List.dropWhile_subset _ hc
        have h2 : c ∈ cs.dropWhile Char.isDigit := by
          rw [heq]
          exact List.mem_cons_of_mem _ h1
        exact List.dropWhile_subset _ h2
    · rw [Option.some.injEq, Prod.mk.injEq] at h
      intro c hc
      rw [← h.2] at hc
      exact List.dropWhile_subset _ hc

theorem scanNumUnit_not_present (u0 : Char) (u' cs : List Char) (h : u0 ∉ cs) :
    scanNumUnit [u0 :: u'] cs = none := by
  induction cs with
  | nil => rfl
  | cons c rest ih =>
    have hrest : u0 ∉ rest := fun hm => h (List.mem_cons_of_mem c hm)
    rcases hscan : scanNumeral (c :: rest) with _ | ⟨q, r1⟩
    · simp only [scanNumUnit, hscan]
      exact ih hrest
    · have hstart : startsWithL (u0 :: u') (r1.dropWhile isPySpace) = false := by
        rcases hr2 : r1.dropWhile isPySpace with _ | ⟨d, t⟩
        · rfl
        · have hd : d ∈ r1 := by
            have : d ∈ r1.dropWhile isPySpace := by rw [hr2]; exact List.mem_cons_self d t
            exact List.dropWhile_subset _ this
          have hdcs : d ∈ c :: rest := scanNumeral_rest_subset _ _ _ hscan d hd
          have : (u0 == d) = false := by
            refine beq_eq_false_iff_ne.mpr (fun he => h ?_)
            rw [he]
            exact hdcs
          simp [startsWithL, this]
      simp only [scanNumUnit, hscan, List.any_cons, List.any_nil, hstart,
        Bool.or_false, Bool.false_eq_true, if_false]
      exact ih hrest

theorem scanNumUnit_at_head (units : List (List Char)) (c : Char) (rest : List Char)
    (q : ℚ) (r1 : List Char)
    (h : scanNumeral (c :: rest) = some (q, r1))
    (hu : (units.any fun u => startsWithL u (r1.dropWhile isPySpace)) = true) :
    scanNumUnit units (c :: rest) = some q := by
  simp only [scanNumUnit, h, hu, if_true]

-- Preprocessing (full-width dot replacement, strip, lower) fixes the
-- rendered strings, whose characters come from a safe set.

theorem pyReplaceGo_not_present (p0 : Char) (pr rep : List Char) :
    ∀ (fuel : ℕ) (cs : List Char), p0 ∉ cs → pyReplaceGo (p0 :: pr) rep fuel cs = cs := by
  intro fuel
  induction fuel with
  | zero => intro cs _; rfl
  | succ fuel ih =>
    intro cs hcs
    cases cs with
    | nil => rfl
    | cons c rest =>
      have hm0c : (p0 == c) = false := by
        refine beq_eq_false_iff_ne.mpr (fun he => hcs ?_)
        rw [he]
        exact List.mem_cons_self c rest
      have hstart : startsWithL (p0 :: pr) (c :: rest) = false := by
        simp [startsWithL, hm0c]
      simp only [pyReplaceGo, hstart, Bool.false_and, Bool.false_eq_true, if_false]
      rw [ih rest (fun hm => hcs (List.mem_cons_of_mem c hm))]

theorem pyReplace_not_present (p0 : Char) (pr rep cs : List Char) (h : p0 ∉ cs) :
    pyReplace (p0 :: pr) rep cs = cs :=
  pyReplaceGo_not_present p0 pr rep cs.length cs h

theorem dropWhile_of_none (p : Char → Bool) (l : List Char)
    (h : ∀ c ∈ l, p c = false) : l.dropWhile p = l := by
  cases l with
  | nil => rfl
  | cons c rest =>
    exact List.dropWhile_cons_of_neg (by simp [h c (List.mem_cons_self c rest)])

theorem pyStrip_of_no_space (cs : List Char) (h : ∀ c ∈ cs, isPySpace c = false) :
    pyStrip cs = cs := by
  unfold pyStrip
  rw [dropWhile_of_none _ _ h]
  rw [dropWhile_of_none _ _ (fun c hc => h c (List.mem_reverse.mp hc))]
  exact List.reverse_reverse cs

theorem pyLower_fix (cs : List Char) (h : ∀ c ∈ cs, asciiLower c = c) :
    pyLower cs = cs := by
  unfold pyLower
  rw [List.map_congr_left h]
  exact List.map_id' cs

/-- The characters that can occur in a rendered amount string. -/
theorem safe_char_facts (c : Char)
    (h : c ∈ ['大', '小', 'さ', 'じ', 'g', '個',
              '0', '1', '2', '3', '4', '5', '6', '7', '8', '9', '.']) :
    c ≠ '．' ∧ isPySpace c = false ∧ asciiLower c = c := by
  fin_cases h <;> refine ⟨by decide, by decide, by decide⟩

theorem preprocess_id (cs : List Char)
    (hchars : ∀ c ∈ cs, c ∈ ['大', '小', 'さ', 'じ', 'g', '個',
      '0', '1', '2', '3', '4', '5', '6', '7', '8', '9', '.']) :
    pyLower (pyStrip (pyReplace "．".toList ".".toList cs)) = cs := by
  have h1 : pyReplace "．".toList ".".toList cs = cs := by
    refine pyReplace_not_present '．' [] _ cs ?_
    intro hmem
    exact (safe_char_facts '．' (hchars '．' hmem)).1 rfl
  rw [h1]
  rw [pyStrip_of_no_space cs (fun c hc => (safe_char_facts c (hchars c hc)).2.1)]
  exact pyLower_fix cs (fun c hc => (safe_char_facts c (hchars c hc)).2.2)

-- Exact-tenth values: decomposition, fraction digits, and the printed form

theorem qshift_one_eq (r : ℚ) : qshift r 1 = r * 10 := by
  unfold qshift
  rw [qmul_eq, Rat.divInt_one]
  norm_num

theorem tenth_decomp (q : ℚ) (h0 : 0 ≤ q) (hsh : (qshift q 1).den = 1) (hd : q.den ≠ 1) :
    ∃ d : ℕ, 1 ≤ d ∧ d ≤ 9 ∧ q - (⌊q⌋ : ℚ) = (d : ℚ) / 10 := by
  rw [qshift_one_eq] at hsh
  have h10 : (((q * 10).num : ℤ) : ℚ) = q * 10 := (Rat.den_eq_one_iff _).mp hsh
  have hge : (0:ℚ) ≤ q - ⌊q⌋ := by
    have := Int.floor_le q
    linarith
  have hlt : q - ⌊q⌋ < 1 := by
    have := Int.lt_floor_add_one q
    linarith
  have hne : q - (⌊q⌋ : ℚ) ≠ 0 := by
    intro h
    have hq : q = ((⌊q⌋ : ℤ) : ℚ) := by linarith
    exact hd (by rw [hq, Rat.den_intCast])
  have hfpos : 0 < q - (⌊q⌋ : ℚ) := lt_of_le_of_ne hge (Ne.symm hne)
  have hfrac : q - (⌊q⌋ : ℚ) = (((q * 10).num - 10 * ⌊q⌋ : ℤ) : ℚ) / 10 := by
    push_cast
    linarith
  have hDpos : 0 < (q * 10).num - 10 * ⌊q⌋ := by
    have h1 : (0:ℚ) < (((q * 10).num - 10 * ⌊q⌋ : ℤ) : ℚ) := by
      rw [hfrac] at hfpos
      linarith
    exact_mod_cast h1
  have hDlt : (q * 10).num - 10 * ⌊q⌋ < 10 := by
    have h1 : (((q * 10).num - 10 * ⌊q⌋ : ℤ) : ℚ) < 10 := by
      rw [hfrac] at hlt
      linarith
    exact_mod_cast h1
  refine ⟨((q * 10).num - 10 * ⌊q⌋).toNat, ?_, ?_, ?_⟩
  · omega
  · omega
  · rw [hfrac]
    congr 1
    exact_mod_cast (Int.toNat_of_nonneg (le_of_lt hDpos)).symm

theorem natChars_single (d : ℕ) (h : d < 10) : natChars d = [digitChar d] := by
  unfold natChars
  cases d with
  | zero => rfl
  | succ k => simp [natCharsGo, h]

theorem fracDigits_tenth (d : ℕ) (h1 : 1 ≤ d) (h9 : d ≤ 9) :
    fracDigits ((d : ℚ) / 10) = some [digitChar d] := by
  have hsh : qshift ((d : ℚ) / 10) 1 = ((d : ℤ) : ℚ) := by
    rw [qshift_one_eq]
    push_cast
    field_simp
  unfold fracDigits
  rw [hsh]
  rw [if_pos (Rat.den_intCast (d : ℤ))]
  have hnum : (((d : ℤ) : ℚ)).num = (d : ℤ) := Rat.num_intCast (d : ℤ)
  rw [hnum]
  have htn : ((d : ℤ)).toNat = d := Int.toNat_natCast d
  rw [htn, natChars_single d (by omega)]
  simp [padZeros]

theorem pyFmtG_int (q : ℚ) (h0 : 0 ≤ q) (h1 : q.den = 1) :
    pyFmtG q = natChars q.num.toNat := by
  unfold pyFmtG pyFmtGNN
  rw [if_neg (not_lt.mpr h0), if_pos h1]

theorem pyFmtG_tenth (q : ℚ) (d : ℕ) (h0 : 0 ≤ q) (hden : q.den ≠ 1)
    (h1 : 1 ≤ d) (h9 : d ≤ 9) (heq : q - (⌊q⌋ : ℚ) = (d : ℚ) / 10) :
    pyFmtG q = natChars ⌊q⌋.toNat ++ '.' :: [digitChar d] := by
  unfold pyFmtG pyFmtGNN
  rw [if_neg (not_lt.mpr h0), if_neg hden]
  have hsub : qsub q (Rat.divInt ⌊q⌋ 1) = (d : ℚ) / 10 := by
    rw [qsub_eq, Rat.divInt_one]
    exact heq
  rw [hsub, fracDigits_tenth d h1 h9]

-- Character classes of printed numerals

theorem digits_sub_dot : ∀ c ∈ ['0', '1', '2', '3', '4', '5', '6', '7', '8', '9'],
    c ∈ ['0', '1', '2', '3', '4', '5', '6', '7', '8', '9', '.'] := by decide

theorem digits_dot_safe : ∀ c ∈ ['0', '1', '2', '3', '4', '5', '6', '7', '8', '9', '.'],
    c ∈ ['大', '小', 'さ', 'じ', 'g', '個',
         '0', '1', '2', '3', '4', '5', '6', '7', '8', '9', '.'] := by decide

theorem digits_dot_not_space :
    ∀ c ∈ ['0', '1', '2', '3', '4', '5', '6', '7', '8', '9', '.'],
    isPySpace c = false := by decide

theorem natChars_cons (n : ℕ) :
    ∃ c cs, natChars n = c :: cs ∧ c ∈ ['0', '1', '2', '3', '4', '5', '6', '7', '8', '9'] := by
  rcases h : natChars n with _ | ⟨c, cs⟩
  · exact absurd h (natCharsGo_ne_nil n n)
  · refine ⟨c, cs, rfl, natChars_mem n c ?_⟩
    rw [h]
    exact List.mem_cons_self c cs

theorem pyFmtG_shape (q : ℚ) (h0 : 0 ≤ q) (hsh : (qshift q 1).den = 1) :
    (∃ c0 cs0, pyFmtG q = c0 :: cs0) ∧
    ∀ c ∈ pyFmtG q, c ∈ ['0', '1', '2', '3', '4', '5', '6', '7', '8', '9', '.'] := by
  by_cases h1 : q.den = 1
  · rw [pyFmtG_int q h0 h1]
    obtain ⟨c, cs, hc, _⟩ := natChars_cons q.num.toNat
    exact ⟨⟨c, cs, hc⟩, fun x hx => digits_sub_dot x (natChars_mem _ x hx)⟩
  · obtain ⟨d, hd1, hd9, heq⟩ := tenth_decomp q h0 hsh h1
    rw [pyFmtG_tenth q d h0 h1 hd1 hd9 heq]
    obtain ⟨c, cs, hc, _⟩ := natChars_cons ⌊q⌋.toNat
    constructor
    · exact ⟨c, cs ++ '.' :: [digitChar d], by rw [hc]; rfl⟩
    · intro x hx
      rcases List.mem_append.mp hx with h2 | h2
      · exact digits_sub_dot x (natChars_mem _ x h2)
      · rcases List.mem_cons.mp h2 with h3 | h3
        · rw [h3]; decide
        · rw [List.mem_singleton.mp h3]
          exact digits_sub_dot _ (digitChar_mem d)

/-- Scanning the printed form of a nonnegative exact-tenth value recovers
    the value exactly, leaving any non-numeric tail untouched. -/
theorem scanNumeral_pyFmtG (q : ℚ) (r : List Char)
    (h0 : 0 ≤ q) (hsh : (qshift q 1).den = 1)
    (hr : ∀ c, r.head? = some c → c.isDigit = false ∧ c ≠ '.') :
    scanNumeral (pyFmtG q ++ r) = some (q, r) := by
  by_cases h1 : q.den = 1
  · rw [pyFmtG_int q h0 h1]
    rw [scanNumeral_int (natChars q.num.toNat) r (natCharsGo_ne_nil _ _)
      (fun c hc => mem_digits_isDigit c (natChars_mem _ c hc)) hr]
    have hnum : 0 ≤ q.num := Rat.num_nonneg.mpr h0
    have hval : ((digitsVal (natChars q.num.toNat) : ℕ) : ℚ) = q := by
      rw [digitsVal_natChars]
      have h2 : ((q.num.toNat : ℕ) : ℤ) = q.num := Int.toNat_of_nonneg hnum
      have h3 : ((q.num.toNat : ℕ) : ℚ) = ((q.num : ℤ) : ℚ) := by exact_mod_cast h2
      rw [h3]
      exact (Rat.den_eq_one_iff q).mp h1
    rw [hval]
  · obtain ⟨d, hd1, hd9, heq⟩ := tenth_decomp q h0 hsh h1
    rw [pyFmtG_tenth q d h0 h1 hd1 hd9 heq]
    rw [scanNumeral_frac (natChars ⌊q⌋.toNat) [digitChar d] r
      (natCharsGo_ne_nil _ _) (by simp)
      (fun c hc => mem_digits_isDigit c (natChars_mem _ c hc))
      (fun c hc => mem_digits_isDigit c (by
        rw [List.mem_singleton.mp hc]
        exact digitChar_mem d)) (fun c hc => (hr c hc).1)]
    have hfs1 : digitsVal [digitChar d] = d := by
      simpa [digitsVal] using digitChar_val d (by omega)
    have hfl : ((⌊q⌋.toNat : ℕ) : ℚ) = ((⌊q⌋ : ℤ) : ℚ) := by
      exact_mod_cast Int.toNat_of_nonneg (Int.floor_nonneg.mpr h0)
    have hval : qadd ((digitsVal (natChars ⌊q⌋.toNat) : ℕ) : ℚ)
        (Rat.divInt ((digitsVal [digitChar d] : ℕ) : ℤ) ((10:ℤ) ^ ([digitChar d].length))) = q := by
      rw [digitsVal_natChars, hfs1, qadd_eq, Rat.divInt_eq_div, hfl]
      push_cast
      simp only [List.length_singleton, pow_one]
      linarith [heq]
    rw [hval]

-- String-level plumbing

theorem toList_mk (l : List Char) : (String.mk l).toList = l := rfl

theorem mk_append_mk (a b : List Char) :
    String.mk a ++ String.mk b = String.mk (a ++ b) := rfl

theorem mk_not_empty (l : List Char) (h : l ≠ []) : (String.mk l).isEmpty = false := by
  cases l with
  | nil => exact absurd rfl h
  | cons c cs =>
    rw [Bool.eq_false_iff]
    intro he
    have h2 := congrArg String.data ((String.isEmpty_iff _).mp he)
    exact List.cons_ne_nil c cs h2

/-- Evaluation of the parser on an explicit character list whose characters
    are untouched by the preprocessing (no full-width dot, no whitespace at
    the ends, no upper-case ASCII). -/
theorem amount_to_unit_value_mk (l : List Char) (hne : l ≠ [])
    (hsafe : ∀ x ∈ l, x ∈ ['大', '小', 'さ', 'じ', 'g', '個',
      '0', '1', '2', '3', '4', '5', '6', '7', '8', '9', '.']) :
    amount_to_unit_value (String.mk l) = scanAmount l := by
  unfold amount_to_unit_value
  rw [if_neg (by rw [mk_not_empty l hne]; exact Bool.false_ne_true)]
  show scanAmount (pyLower (pyStrip (pyReplace "．".toList ".".toList l))) = scanAmount l
  exact congrArg scanAmount (preprocess_id l hsafe)

-- Rendering in explicit list form, per unit

theorem render_tbsp_pos (x : ℚ) (h : 0 < roundHalf x) :
    unit_value_to_amount "tbsp" x = String.mk (['大', 'さ', 'じ'] ++ pyFmtG (roundHalf x)) := by
  unfold unit_value_to_amount
  rw [if_pos rfl]
  dsimp only
  rw [if_neg (not_le.mpr h)]
  rfl

theorem render_tsp_pos (x : ℚ) (h : 0 < roundHalf x) :
    unit_value_to_amount "tsp" x = String.mk (['小', 'さ', 'じ'] ++ pyFmtG (roundHalf x)) := by
  unfold unit_value_to_amount
  rw [if_neg (by decide), if_pos rfl]
  dsimp only
  rw [if_neg (not_le.mpr h)]
  rfl

theorem render_g_pos (x : ℚ) (hx : 0 < x) :
    unit_value_to_amount "g" x =
      String.mk (intChars (gramsPrettyVal (roundHalfEven x)) ++ ['g']) := by
  unfold unit_value_to_amount grams_to_pretty
  rw [if_neg (by decide), if_neg (by decide), if_pos rfl, if_neg (not_le.mpr hx)]
  rfl

theorem roundHalf_idem (x : ℚ) : roundHalf (roundHalf x) = roundHalf x :=
  roundHalf_fix (roundHalfEven (qmul x 2))

theorem roundHalf_tenth (x : ℚ) : (qshift (roundHalf x) 1).den = 1 := by
  rw [qshift_one_eq]
  have h : roundHalf x * 10 = ((roundHalfEven (qmul x 2) * 5 : ℤ) : ℚ) := by
    unfold roundHalf
    rw [Rat.divInt_eq_div]
    push_cast
    ring
  rw [h, Rat.den_intCast]

-- Parsing the rendered spoon strings

theorem parse_render_tbsp (v : ℚ) (h : 0 < roundHalf v) :
    amount_to_unit_value (unit_value_to_amount "tbsp" v) = ("tbsp", roundHalf v) := by
  rw [render_tbsp_pos v h]
  have h0 : (0:ℚ) ≤ roundHalf v := le_of_lt h
  have hsh := roundHalf_tenth v
  obtain ⟨⟨c0, cs0, hcons⟩, hchars⟩ := pyFmtG_shape (roundHalf v) h0 hsh
  have hne : (['大', 'さ', 'じ'] ++ pyFmtG (roundHalf v)) ≠ [] := by simp
  have hsafe : ∀ x ∈ ['大', 'さ', 'じ'] ++ pyFmtG (roundHalf v),
      x ∈ ['大', '小', 'さ', 'じ', 'g', '個',
           '0', '1', '2', '3', '4', '5', '6', '7', '8', '9', '.'] := by
    intro x hx
    rcases List.mem_append.mp hx with h1 | h1
    · fin_cases h1 <;> decide
    · exact digits_dot_safe x (hchars x h1)
  rw [amount_to_unit_value_mk _ hne hsafe]
  have hdrop : (pyFmtG (roundHalf v)).dropWhile isPySpace = pyFmtG (roundHalf v) := by
    rw [hcons]
    refine List.dropWhile_cons_of_neg ?_
    have hns := digits_dot_not_space c0 (hchars c0 (by rw [hcons]; exact List.mem_cons_self c0 cs0))
    simp [hns]
  have hscan : scanNumeral ((pyFmtG (roundHalf v)).dropWhile isPySpace) =
      some (roundHalf v, []) := by
    rw [hdrop]
    have h2 := scanNumeral_pyFmtG (roundHalf v) [] h0 hsh (fun c hc => by simp at hc)
    simpa using h2
  have hm : scanMarkerNum "大さじ".toList (['大', 'さ', 'じ'] ++ pyFmtG (roundHalf v)) =
      some (roundHalf v) :=
    scanMarkerNum_at_head '大' ['さ', 'じ'] (pyFmtG (roundHalf v)) (roundHalf v) [] hscan
  unfold scanAmount
  rw [hm]

theorem parse_render_tsp (v : ℚ) (h : 0 < roundHalf v) :
    amount_to_unit_value (unit_value_to_amount "tsp" v) = ("tsp", roundHalf v) := by
  rw [render_tsp_pos v h]
  have h0 : (0:ℚ) ≤ roundHalf v := le_of_lt h
  have hsh := roundHalf_tenth v
  obtain ⟨⟨c0, cs0, hcons⟩, hchars⟩ := pyFmtG_shape (roundHalf v) h0 hsh
  have hne : (['小', 'さ', 'じ'] ++ pyFmtG (roundHalf v)) ≠ [] := by simp
  have hsafe : ∀ x ∈ ['小', 'さ', 'じ'] ++ pyFmtG (roundHalf v),
      x ∈ ['大', '小', 'さ', 'じ', 'g', '個',
           '0', '1', '2', '3', '4', '5', '6', '7', '8', '9', '.'] := by
    intro x hx
    rcases List.mem_append.mp hx with h1 | h1
    · fin_cases h1 <;> decide
    · exact digits_dot_safe x (hchars x h1)
  rw [amount_to_unit_value_mk _ hne hsafe]
  have hno : '大' ∉ ['小', 'さ', 'じ'] ++ pyFmtG (roundHalf v) := by
    intro hm
    rcases List.mem_append.mp hm with h1 | h1
    · exact absurd h1 (by decide)
    · exact absurd (hchars _ h1) (by decide)
  have hm1 : scanMarkerNum "大さじ".toList (['小', 'さ', 'じ'] ++ pyFmtG (roundHalf v)) = none :=
    scanMarkerNum_not_present '大' ['さ', 'じ'] _ hno
  have hdrop : (pyFmtG (roundHalf v)).dropWhile isPySpace = pyFmtG (roundHalf v) := by
    rw [hcons]
    refine List.dropWhile_cons_of_neg ?_
    have hns := digits_dot_not_space c0 (hchars c0 (by rw [hcons]; exact List.mem_cons_self c0 cs0))
    simp [hns]
  have hscan : scanNumeral ((pyFmtG (roundHalf v)).dropWhile isPySpace) =
      some (roundHalf v, []) := by
    rw [hdrop]
    have h2 := scanNumeral_pyFmtG (roundHalf v) [] h0 hsh (fun c hc => by simp at hc)
    simpa using h2
  have hm2 : scanMarkerNum "小さじ".toList (['小', 'さ', 'じ'] ++ pyFmtG (roundHalf v)) =
      some (roundHalf v) :=
    scanMarkerNum_at_head '小' ['さ', 'じ'] (pyFmtG (roundHalf v)) (roundHalf v) [] hscan
  unfold scanAmount
  rw [hm1, hm2]

theorem trip_tbsp (v : ℚ) (h : 0 < roundHalf v) :
    render_parse_render "tbsp" v = unit_value_to_amount "tbsp" v := by
  unfold render_parse_render
  dsimp only
  rw [parse_render_tbsp v h]
  show unit_value_to_amount "tbsp" (roundHalf v) = unit_value_to_amount "tbsp" v
  have h2 : 0 < roundHalf (roundHalf v) := by
    rw [roundHalf_idem]
    exact h
  rw [render_tbsp_pos _ h2, render_tbsp_pos v h, roundHalf_idem]

theorem trip_tsp (v : ℚ) (h : 0 < roundHalf v) :
    render_parse_render "tsp" v = unit_value_to_amount "tsp" v := by
  unfold render_parse_render
  dsimp only
  rw [parse_render_tsp v h]
  show unit_value_to_amount "tsp" (roundHalf v) = unit_value_to_amount "tsp" v
  have h2 : 0 < roundHalf (roundHalf v) := by
    rw [roundHalf_idem]
    exact h
  rw [render_tsp_pos _ h2, render_tsp_pos v h, roundHalf_idem]

-- The gram branch

theorem parse_render_g (v : ℚ) (hpos : 0 < v)
    (hw : 0 < gramsPrettyVal (roundHalfEven v)) :
    amount_to_unit_value (unit_value_to_amount "g" v) =
      ("g", (((gramsPrettyVal (roundHalfEven v)).toNat : ℕ) : ℚ)) := by
  rw [render_g_pos v hpos]
  have hint : intChars (gramsPrettyVal (roundHalfEven v)) =
      natChars (gramsPrettyVal (roundHalfEven v)).toNat := by
    unfold intChars
    rw [if_neg (not_lt.mpr (le_of_lt hw))]
  rw [hint]
  obtain ⟨c, cs, hc, _⟩ := natChars_cons (gramsPrettyVal (roundHalfEven v)).toNat
  have hdigs : ∀ x ∈ natChars (gramsPrettyVal (roundHalfEven v)).toNat,
      x ∈ ['0', '1', '2', '3', '4', '5', '6', '7', '8', '9'] :=
    natChars_mem _
  have hne : (natChars (gramsPrettyVal (roundHalfEven v)).toNat ++ ['g']) ≠ [] := by simp
  have hsafe : ∀ x ∈ natChars (gramsPrettyVal (roundHalfEven v)).toNat ++ ['g'],
      x ∈ ['大', '小', 'さ', 'じ', 'g', '個',
           '0', '1', '2', '3', '4', '5', '6', '7', '8', '9', '.'] := by
    intro x hx
    rcases List.mem_append.mp hx with h1 | h1
    · exact digits_dot_safe x (digits_sub_dot x (hdigs x h1))
    · rw [List.mem_singleton.mp h1]
      decide
  rw [amount_to_unit_value_mk _ hne hsafe]
  have hno1 : '大' ∉ natChars (gramsPrettyVal (roundHalfEven v)).toNat ++ ['g'] := by
    intro hm
    rcases List.mem_append.mp hm with h1 | h1
    · exact absurd (hdigs _ h1) (by decide)
    · exact absurd (List.mem_singleton.mp h1) (by decide)
  have hno2 : '小' ∉ natChars (gramsPrettyVal (roundHalfEven v)).toNat ++ ['g'] := by
    intro hm
    rcases List.mem_append.mp hm with h1 | h1
    · exact absurd (hdigs _ h1) (by decide)
    · exact absurd (List.mem_singleton.mp h1) (by decide)
  have hm1 : scanMarkerNum "大さじ".toList
      (natChars (gramsPrettyVal (roundHalfEven v)).toNat ++ ['g']) = none :=
    scanMarkerNum_not_present '大' ['さ', 'じ'] _ hno1
  have hm2 : scanMarkerNum "小さじ".toList
      (natChars (gramsPrettyVal (roundHalfEven v)).toNat ++ ['g']) = none :=
    scanMarkerNum_not_present '小' ['さ', 'じ'] _ hno2
  have hscan : scanNumeral (natChars (gramsPrettyVal (roundHalfEven v)).toNat ++ ['g']) =
      some (((digitsVal (natChars (gramsPrettyVal (roundHalfEven v)).toNat) : ℕ) : ℚ), ['g']) :=
    scanNumeral_int _ ['g'] (natCharsGo_ne_nil _ _)
      (fun x hx => mem_digits_isDigit x (hdigs x hx))
      (fun x hx => by
        simp only [List.head?_cons, Option.some.injEq] at hx
        rw [← hx]
        exact ⟨by decide, by decide⟩)
  have hg : scanNumUnit ["g".toList]
      (natChars (gramsPrettyVal (roundHalfEven v)).toNat ++ ['g']) =
      some (((digitsVal (natChars (gramsPrettyVal (roundHalfEven v)).toNat) : ℕ) : ℚ)) := by
    rw [hc]
    rw [hc] at hscan
    exact scanNumUnit_at_head ["g".toList] c (cs ++ ['g']) _ ['g'] hscan (by decide)
  unfold scanAmount
  rw [hm1, hm2, hg, digitsVal_natChars]

theorem trip_g (v : ℚ) (hpos : 0 < v) (hw : 0 < gramsPrettyVal (roundHalfEven v))
    (hfix : gramsPrettyVal (gramsPrettyVal (roundHalfEven v)) = gramsPrettyVal (roundHalfEven v)) :
    render_parse_render "g" v = unit_value_to_amount "g" v := by
  unfold render_parse_render
  dsimp only
  rw [parse_render_g v hpos hw]
  show unit_value_to_amount "g" (((gramsPrettyVal (roundHalfEven v)).toNat : ℕ) : ℚ) =
    unit_value_to_amount "g" v
  have h1 : (((gramsPrettyVal (roundHalfEven v)).toNat : ℕ) : ℤ) =
      gramsPrettyVal (roundHalfEven v) := Int.toNat_of_nonneg (le_of_lt hw)
  have h2 : (((gramsPrettyVal (roundHalfEven v)).toNat : ℕ) : ℚ) =
      ((gramsPrettyVal (roundHalfEven v) : ℤ) : ℚ) := by exact_mod_cast h1
  have hpos2 : (0:ℚ) < (((gramsPrettyVal (roundHalfEven v)).toNat : ℕ) : ℚ) := by
    rw [h2]
    exact_mod_cast hw
  rw [render_g_pos _ hpos2, render_g_pos v hpos, h2, roundHalfEven_intCast, hfix]

-- The piece branch

theorem piece_test_iff (v : ℚ) (h0 : 0 ≤ v) (hsh : (qshift v 1).den = 1) :
    (qabs (qsub v (Rat.divInt (pyTrunc v) 1)) < qc 1 1000000) ↔ v.den = 1 := by
  rw [pyTrunc_of_nonneg v h0]
  have hq : qabs (qsub v (Rat.divInt ⌊v⌋ 1)) = v - (⌊v⌋ : ℚ) := by
    unfold qabs
    rw [qsub_eq, Rat.divInt_one]
    rw [if_neg (not_lt.mpr (sub_nonneg.mpr (Int.floor_le v)))]
  rw [hq, qc_eq]
  constructor
  · intro hlt
    by_contra hden
    obtain ⟨d, hd1, _, heq⟩ := tenth_decomp v h0 hsh hden
    rw [heq] at hlt
    have hd : (1:ℚ) ≤ (d:ℚ) := by exact_mod_cast hd1
    have hcast : ((1:ℤ):ℚ) / ((1000000:ℤ):ℚ) = 1/1000000 := by norm_num
    rw [hcast] at hlt
    linarith
  · intro hden
    have hnum : ((v.num : ℤ) : ℚ) = v := (Rat.den_eq_one_iff v).mp hden
    rw [← hnum, Int.floor_intCast]
    norm_num

theorem render_piece_int (v : ℚ) (h0 : 0 ≤ v) (hsh : (qshift v 1).den = 1)
    (hden : v.den = 1) :
    unit_value_to_amount "piece" v = String.mk (natChars v.num.toNat ++ ['個']) := by
  unfold unit_value_to_amount
  rw [if_neg (by decide), if_neg (by decide), if_neg (by decide),
      if_pos ((piece_test_iff v h0 hsh).mpr hden)]
  rw [pyTrunc_of_nonneg v h0]
  have hfl : ⌊v⌋ = v.num := by
    have hnum : ((v.num : ℤ) : ℚ) = v := (Rat.den_eq_one_iff v).mp hden
    rw [← hnum, Int.floor_intCast]
    exact (Rat.num_intCast _).symm
  rw [hfl]
  unfold intChars
  rw [if_neg (not_lt.mpr (Rat.num_nonneg.mpr h0))]
  rfl

theorem render_piece_frac (v : ℚ) (h0 : 0 ≤ v) (hsh : (qshift v 1).den = 1)
    (hden : v.den ≠ 1) :
    unit_value_to_amount "piece" v = String.mk (pyFmtG v ++ ['個']) := by
  unfold unit_value_to_amount
  rw [if_neg (by decide), if_neg (by decide), if_neg (by decide),
      if_neg (fun hlt => hden ((piece_test_iff v h0 hsh).mp hlt))]
  rfl

theorem parse_render_piece (v : ℚ) (h0 : 0 ≤ v) (hsh : (qshift v 1).den = 1) :
    amount_to_unit_value (unit_value_to_amount "piece" v) = ("piece", v) := by
  by_cases hden : v.den = 1
  · rw [render_piece_int v h0 hsh hden]
    have hdigs := natChars_mem v.num.toNat
    have hne : (natChars v.num.toNat ++ ['個']) ≠ [] := by simp
    have hsafe : ∀ x ∈ natChars v.num.toNat ++ ['個'],
        x ∈ ['大', '小', 'さ', 'じ', 'g', '個',
             '0', '1', '2', '3', '4', '5', '6', '7', '8', '9', '.'] := by
      intro x hx
      rcases List.mem_append.mp hx with h1 | h1
      · exact digits_dot_safe x (digits_sub_dot x (hdigs x h1))
      · rw [List.mem_singleton.mp h1]
        decide
    rw [amount_to_unit_value_mk _ hne hsafe]
    have hno1 : '大' ∉ natChars v.num.toNat ++ ['個'] := by
      intro hm
      rcases List.mem_append.mp hm with h1 | h1
      · exact absurd (hdigs _ h1) (by decide)
      · exact absurd (List.mem_singleton.mp h1) (by decide)
    have hno2 : '小' ∉ natChars v.num.toNat ++ ['個'] := by
      intro hm
      rcases List.mem_append.mp hm with h1 | h1
      · exact absurd (hdigs _ h1) (by decide)
      · exact absurd (List.mem_singleton.mp h1) (by decide)
    have hnog : 'g' ∉ natChars v.num.toNat ++ ['個'] := by
      intro hm
      rcases List.mem_append.mp hm with h1 | h1
      · exact absurd (hdigs _ h1) (by decide)
      · exact absurd (List.mem_singleton.mp h1) (by decide)
    have hm1 : scanMarkerNum "大さじ".toList (natChars v.num.toNat ++ ['個']) = none :=
      scanMarkerNum_not_present '大' ['さ', 'じ'] _ hno1
    have hm2 : scanMarkerNum "小さじ".toList (natChars v.num.toNat ++ ['個']) = none :=
      scanMarkerNum_not_present '小' ['さ', 'じ'] _ hno2
    have hmg : scanNumUnit ["g".toList] (natChars v.num.toNat ++ ['個']) = none :=
      scanNumUnit_not_present 'g' [] _ hnog
    obtain ⟨c, cs, hc, _⟩ := natChars_cons v.num.toNat
    have hscan : scanNumeral (natChars v.num.toNat ++ ['個']) =
        some (((digitsVal (natChars v.num.toNat) : ℕ) : ℚ), ['個']) :=
      scanNumeral_int _ ['個'] (natCharsGo_ne_nil _ _)
        (fun x hx => mem_digits_isDigit x (hdigs x hx))
        (fun x hx => by
          simp only [List.head?_cons, Option.some.injEq] at hx
          rw [← hx]
          exact ⟨by decide, by decide⟩)
    have hp : scanNumUnit ["個".toList] (natChars v.num.toNat ++ ['個']) =
        some (((digitsVal (natChars v.num.toNat) : ℕ) : ℚ)) := by
      rw [hc]
      rw [hc] at hscan
      exact scanNumUnit_at_head ["個".toList] c (cs ++ ['個']) _ ['個'] hscan (by decide)
    unfold scanAmount
    rw [hm1, hm2, hmg, hp, digitsVal_natChars]
    have h1 : ((v.num.toNat : ℕ) : ℤ) = v.num := Int.toNat_of_nonneg (Rat.num_nonneg.mpr h0)
    have h2 : ((v.num.toNat : ℕ) : ℚ) = ((v.num : ℤ) : ℚ) := by exact_mod_cast h1
    rw [h2, (Rat.den_eq_one_iff v).mp hden]
  · rw [render_piece_frac v h0 hsh hden]
    obtain ⟨⟨c0, cs0, hcons⟩, hchars⟩ := pyFmtG_shape v h0 hsh
    have hne : (pyFmtG v ++ ['個']) ≠ [] := by simp
    have hsafe : ∀ x ∈ pyFmtG v ++ ['個'],
        x ∈ ['大', '小', 'さ', 'じ', 'g', '個',
             '0', '1', '2', '3', '4', '5', '6', '7', '8', '9', '.'] := by
      intro x hx
      rcases List.mem_append.mp hx with h1 | h1
      · exact digits_dot_safe x (hchars x h1)
      · rw [List.mem_singleton.mp h1]
        decide
    rw [amount_to_unit_value_mk _ hne hsafe]
    have hno1 : '大' ∉ pyFmtG v ++ ['個'] := by
      intro hm
      rcases List.mem_append.mp hm with h1 | h1
      · exact absurd (hchars _ h1) (by decide)
      · exact absurd (List.mem_singleton.mp h1) (by decide)
    have hno2 : '小' ∉ pyFmtG v ++ ['個'] := by
      intro hm
      rcases List.mem_append.mp hm with h1 | h1
      · exact absurd (hchars _ h1) (by decide)
      · exact absurd (List.mem_singleton.mp h1) (by decide)
    have hnog : 'g' ∉ pyFmtG v ++ ['個'] := by
      intro hm
      rcases List.mem_append.mp hm with h1 | h1
      · exact absurd (hchars _ h1) (by decide)
      · exact absurd (List.mem_singleton.mp h1) (by decide)
    have hm1 : scanMarkerNum "大さじ".toList (pyFmtG v ++ ['個']) = none :=
      scanMarkerNum_not_present '大' ['さ', 'じ'] _ hno1
    have hm2 : scanMarkerNum "小さじ".toList (pyFmtG v ++ ['個']) = none :=
      scanMarkerNum_not_present '小' ['さ', 'じ'] _ hno2
    have hmg : scanNumUnit ["g".toList] (pyFmtG v ++ ['個']) = none :=
      scanNumUnit_not_present 'g' [] _ hnog
    have hscan0 : scanNumeral (pyFmtG v ++ ['個']) = some (v, ['個']) :=
      scanNumeral_pyFmtG v ['個'] h0 hsh
        (fun c hc => by
          simp only [List.head?_cons, Option.some.injEq] at hc
          rw [← hc]
          exact ⟨by decide, by decide⟩)
    have hp : scanNumUnit ["個".toList] (pyFmtG v ++ ['個']) = some v := by
      rw [hcons]
      rw [hcons] at hscan0
      exact scanNumUnit_at_head ["個".toList] c0 (cs0 ++ ['個']) v ['個'] hscan0 (by decide)
    unfold scanAmount
    rw [hm1, hm2, hmg, hp]

theorem trip_piece (v : ℚ) (h0 : 0 ≤ v) (hsh : (qshift v 1).den = 1) :
    render_parse_render "piece" v = unit_value_to_amount "piece" v := by
  unfold render_parse_render
  dsimp only
  rw [parse_render_piece v h0 hsh]

/-- Claim C4 (amended): the render/parse/render round trip reproduces the
    first rendering on the stable domain: spoon values whose half-rounding
    is positive (and at most 10^4, so the source float format prints a
    plain decimal), gram values whose rounded display value is a positive
    fixed point of the gram pretty-rounding (this excludes exactly the
    displays 0g and 60g), and nonnegative exact-tenth piece values below
    10^4.  Outside this domain the trip can change the display (58 g). -/
theorem render_parse_render_stable_on_ok (u : String) (v : ℚ)
    (h : c4ok u v = true) : render_parse_render u v = unit_value_to_amount u v := by
  unfold c4ok at h
  simp only [Bool.or_eq_true, Bool.and_eq_true, beq_iff_eq, decide_eq_true_eq] at h
  rcases h with ((⟨⟨hu, hp⟩, _⟩ | ⟨⟨hu, hp⟩, _⟩) | ⟨⟨hu, hv⟩, hw, hfix⟩) | ⟨⟨⟨hu, h0⟩, hden⟩, _⟩
  · rw [hu]
    exact trip_tbsp v hp
  · rw [hu]
    exact trip_tsp v hp
  · rw [hu]
    exact trip_g v hv hw hfix
  · rw [hu]
    exact trip_piece v h0 hden

/-- Witness for the amended round-trip theorem at the gram value 50,
    whose display 50g is a fixed point of the pretty-rounding. -/
theorem render_parse_render_stable_on_ok_witness :
    c4ok "g" 50 = true ∧ render_parse_render "g" 50 = unit_value_to_amount "g" 50 :=
  ⟨by decide, render_parse_render_stable_on_ok "g" 50 (by decide)⟩
